import Mathlib

/-!
# syncli: space enrichment (`internal/synapse/rooms.go`) and the HTTP `Call`

A shallow embedding of `GetSpaces`, `parseSpaces`, `Space.Header`,
`Space.Row` and of the two `Call` implementations
(`internal/synapse/client.go`, `internal/requester.go`).

Conventions of the embedding.

* A Go slice is a `List`; the nil slice and the empty slice are both `[]`
  (length zero).  A Go `error` is `Option GoError`, `none` being `nil`.
  A Go pair `(value, error)` is a Lean pair.
* Go `int` is `Int`.  The only arithmetic on it is the child counter, which
  is bounded by the length of a slice held in memory, so it cannot wrap.
* `encoding/json`, the `mautrix` payload types, `net/http`, `errgroup` and the
  `backoff` package are libraries outside the repository.  The decoders and
  the HTTP layer are parameters; `errgroup` and the buffered channel used as a
  semaphore are modelled by their documented behaviour.
* The goroutines of `GetSpaces` are modelled by an explicit interleaving
  semantics: a state (`Enrichment`), atomic actions of single tasks
  (`Action`), and a schedule, the list of actions in the order in which they
  happen.  `GetSpaces` takes the schedule as an argument and yields `none`
  when the schedule is not a complete execution (an action that is not
  enabled, or a task that has not returned when the schedule ends).
* Real time is abstracted by an action: the five-minute deadline of
  `context.WithTimeout` (rooms.go, line 56) expires at a point of the
  schedule chosen by the environment (`Action.expire`), or not at all.  The
  context of the error group is done from the expiry of the deadline or from
  the first error the group records, whichever comes first.  The deadline is
  taken to expire, if it does, after the listing call has returned.
* A transport that is handed a context that is done either fails or answers
  as it does under a live context (`SynapseClientInterface.honours`): the
  context can make a call fail, it cannot change a payload.
-/

namespace Syncli

/-! ## Data model -/

/-- A byte slice (`[]byte`); payloads are written as text. -/
abbrev Bytes := String

/-- A non-nil Go `error` value: its dynamic type and what the type holds.
`canceled` and `deadlineExceeded` are the sentinels `context.Canceled` and
`context.DeadlineExceeded`; `syntaxError` is a `*json.SyntaxError`,
`unmarshalTypeError` a `*json.UnmarshalTypeError`; `errorString` is an
`*errors.errorString`, the type of `errors.New` and of `fmt.Errorf` without
`%w`; `other` is a value of any other type, given by the name of the type. -/
inductive GoError where
  | canceled
  | deadlineExceeded
  | syntaxError (msg : String) (offset : Int)
  | unmarshalTypeError (msg : String)
  | errorString (msg : String)
  | other (typeName : String) (msg : String)
  deriving DecidableEq, Repr

/-- The text of `err.Error()`. -/
def GoError.Error : GoError → String
  | .canceled => "context canceled"
  | .deadlineExceeded => "context deadline exceeded"
  | .syntaxError msg _ => msg
  | .unmarshalTypeError msg => msg
  | .errorString msg => msg
  | .other _ msg => msg

/-- The three classes of failure of the specification. -/
inductive FailureKind where
  | network
  | decode
  | cancellation
  deriving DecidableEq, Repr

/-- The class that the dynamic type of an error stands for: the context
sentinels are cancellations, the errors of `encoding/json` are decode
failures, every other error is taken as a failure of the transport. -/
def GoError.kind : GoError → FailureKind
  | .canceled => FailureKind.cancellation
  | .deadlineExceeded => FailureKind.cancellation
  | .syntaxError _ _ => FailureKind.decode
  | .unmarshalTypeError _ => FailureKind.decode
  | .errorString _ => FailureKind.network
  | .other _ _ => FailureKind.network

/-- What a callee can observe of a `context.Context`: the value of `ctx.Err()`. -/
structure Context where
  Err : Option GoError
  deriving DecidableEq, Repr

/-- The record `Space` of rooms.go, lines 35-41. -/
structure Space where
  ID : String
  Name : String
  Members : Int
  ChildCount : Int
  ChildRooms : List String
  deriving DecidableEq, Repr

/-- Modelled from the spec: the entries of `mautrix.RespPublicRooms.Chunk`
(the type declaration is not in the repository): "a sequence of objects each
with `room_id`, `name`, `num_joined_members`". -/
structure PublicRoomInfo where
  RoomID : String
  Name : String
  NumJoinedMembers : Int
  deriving DecidableEq, Repr

/-- Modelled from the spec: the fields of `mautrix/event.Event` that rooms.go
reads (the type declaration is not in the repository): "event objects each
with `type` and optional `state_key`".  `TypeString` is the value of
`event.Type.String()`; `StateKey` is a `*string`, `none` being the nil
pointer. -/
structure Event where
  TypeString : String
  StateKey : Option String
  deriving DecidableEq, Repr

/-- The two uses of `json.Unmarshal` in rooms.go: into
`mautrix.RespPublicRooms` (giving `result.Chunk`) and into `StateResponse`
(giving `resp.State`).  The decoder sees the bytes and nothing else. -/
structure JSON where
  UnmarshalPublicRooms : Bytes → Except GoError (List PublicRoomInfo)
  UnmarshalState : Bytes → Except GoError (List Event)

/-- The interface `SynapseClientInterface` of client.go, lines 33-35.  The
context argument is what the call sees of its context when it returns.  A
call under a context that is done fails, or returns what it returns under a
live context (`honours`). -/
structure SynapseClientInterface where
  Call : Context → String → String → Option Bytes → Bool → Bytes × Option GoError
  honours : ∀ (ctx : Context) (path method : String) (payload : Option Bytes) (retry : Bool),
    (Call ctx path method payload retry).2 ≠ none ∨
    Call ctx path method payload retry = Call { Err := none } path method payload retry

/-- The constant `maxConcurrentRequests` of rooms.go, line 51. -/
def maxConcurrentRequests : Nat := 10

/-! ## `parseSpaces` (rooms.go, lines 139-155) -/

/-- The `Space` literal of lines 146-152, built from one chunk entry. -/
def newSpace (room : PublicRoomInfo) : Space :=
  { ID := room.RoomID, Name := room.Name, Members := room.NumJoinedMembers,
    ChildCount := 0, ChildRooms := [] }

/-- The loop of `parseSpaces`: one appended `Space` per chunk entry. -/
def parseSpaces.loop (chunk : List PublicRoomInfo) : List Space :=
  chunk.foldl (fun spaces room => spaces ++ [newSpace room]) []

/-- The function `parseSpaces`. -/
def parseSpaces (json : JSON) (data : Bytes) : List Space × Option GoError :=
  match json.UnmarshalPublicRooms data with
  | .error err => ([], some err)
  | .ok chunk => (parseSpaces.loop chunk, none)

/-! ## The enrichment task (rooms.go, lines 83-123) -/

/-- The path of the detail call of the space with identifier `id` (line 97). -/
def statePath (id : String) : String :=
  "/_synapse/admin/v1/rooms/" ++ id ++ "/state"

/-- The path of the listing call (line 59). -/
def publicRoomsPath : String := "/_matrix/client/v3/publicRooms"

/-- The payload of the listing call (line 58). -/
def publicRoomsPayload : Bytes :=
  "\x7b\"limit\": 200, \"filter\": \x7b\"room_types\": [\"m.space\"]\x7d\x7d"

/-- The loop of lines 107-115: `childCount` and `childRooms` after ranging
over `resp.State`. -/
def countChildren (state : List Event) : Int × List String :=
  state.foldl
    (fun acc event =>
      match event.StateKey with
      | some key =>
        if event.TypeString = "m.space.child" then (acc.1 + 1, acc.2 ++ [key]) else acc
      | none => acc)
    (0, [])

/-- Lines 117-120: the merge of a task's result into `spaces[i]`, done under
the mutex. -/
def merge (spaces : List Space) (i : Nat) (childCount : Int) (childRooms : List String) :
    List Space :=
  match spaces[i]? with
  | some space =>
    spaces.set i { space with ChildCount := space.ChildCount + childCount,
                              ChildRooms := space.ChildRooms ++ childRooms }
  | none => spaces

/-- Line 97: the detail call of the space with identifier `id`. -/
def detailCall (client : SynapseClientInterface) (ctx : Context) (id : String) :
    Bytes × Option GoError :=
  client.Call ctx (statePath id) "GET" none false

/-- Line 59: the listing call. -/
def listingCall (client : SynapseClientInterface) : Bytes × Option GoError :=
  client.Call { Err := none } publicRoomsPath "POST" (some publicRoomsPayload) false

/-- Lines 98-105: the two error checks after the detail call; the result is
the error the task returns, or the decoded `resp.State`. -/
def fetchState (json : JSON) (resp : Bytes × Option GoError) : Except GoError (List Event) :=
  match resp.2 with
  | some err => .error err
  | none => json.UnmarshalState resp.1

/-- Lines 97-122: what task `i` does from the return of its detail call on.
The result is the shared slice afterwards and the error the task returns. -/
def afterCall (json : JSON) (spaces : List Space) (i : Nat) (resp : Bytes × Option GoError) :
    List Space × Option GoError :=
  match fetchState json resp with
  | .error err => (spaces, some err)
  | .ok state =>
    let counted := countChildren state
    (merge spaces i counted.1 counted.2, none)

/-! ## The interleaving semantics of the error group -/

/-- Where task `i` stands. -/
inductive Phase where
  /-- Blocked in the `select` of lines 85-89. -/
  | waiting
  /-- Past `sem <- struct{}{}`: holds a slot, detail call not issued yet. -/
  | admitted
  /-- Inside `client.Call` of line 97. -/
  | calling
  /-- The task function has returned `err` (possibly `nil`) and holds no
  slot: it released it after its call, or it returned `ctx.Err()` from the
  `select` and never had one.  The wrapper of the group has not looked at the
  result yet. -/
  | returned (err : Option GoError)
  /-- The task returned `nil` and the group has taken note. -/
  | finished
  /-- The task returned an error and the group has taken note. -/
  | failed
  deriving DecidableEq, Repr

/-- The shared state of the enrichment phase. -/
structure Enrichment where
  /-- The slice `spaces`. -/
  spaces : List Space
  /-- One phase per spawned task. -/
  phase : List Phase
  /-- The number of elements in the channel `sem`. -/
  sem : Nat
  /-- The first error of the group (`g.err`). -/
  err : Option GoError
  /-- The value of `ctx.Err()` of the context of the group: `nil`, or
  `context.DeadlineExceeded` when the deadline of line 56 expired first, or
  `context.Canceled` when the group cancelled first. -/
  ctxErr : Option GoError
  /-- The paths of the detail calls issued so far, oldest first. -/
  calls : List String
  deriving DecidableEq, Repr

/-- The context derived by `errgroup.WithContext` (line 69) from the context
with the deadline (line 56), as a callee sees it. -/
def Enrichment.ctx (s : Enrichment) : Context :=
  { Err := s.ctxErr }

/-- An atomic action: of task `i`, or of the clock. -/
inductive Action where
  /-- The deadline of `context.WithTimeout` expires while the context is not
  done yet: from now on `ctx.Err()` is `context.DeadlineExceeded`. -/
  | expire
  /-- The `select` takes `sem <- struct{}{}` (possible while the channel is
  not full). -/
  | acquire (i : Nat)
  /-- The `select` takes `<-ctx.Done()` (possible once the context is done,
  by the deadline or by the group); the task returns `ctx.Err()`. -/
  | abort (i : Nat)
  /-- The task enters `client.Call`. -/
  | issue (i : Nat)
  /-- The detail call returns; the task decodes, counts, merges under the
  mutex, and its deferred `<-sem` runs. -/
  | complete (i : Nat)
  /-- The wrapper of the group looks at what the task returned: an error is
  recorded if it is the first (`errOnce`), which cancels the context if it
  is not done yet; then the task counts as done. -/
  | record (i : Nat)
  deriving DecidableEq, Repr

/-- One step of the enrichment phase; `none` when the action is not enabled. -/
def step (json : JSON) (client : SynapseClientInterface) (s : Enrichment) :
    Action → Option Enrichment
  | .expire =>
    match s.ctxErr with
    | none => some { s with ctxErr := some GoError.deadlineExceeded }
    | some _ => none
  | .acquire i =>
    if s.phase[i]? = some Phase.waiting ∧ s.sem < maxConcurrentRequests then
      some { s with phase := s.phase.set i Phase.admitted, sem := s.sem + 1 }
    else none
  | .abort i =>
    match s.ctxErr with
    | some ctxErr =>
      if s.phase[i]? = some Phase.waiting then
        some { s with phase := s.phase.set i (Phase.returned (some ctxErr)) }
      else none
    | none => none
  | .issue i =>
    match s.spaces[i]? with
    | some space =>
      if s.phase[i]? = some Phase.admitted then
        some { s with phase := s.phase.set i Phase.calling,
                      calls := s.calls ++ [statePath space.ID] }
      else none
    | none => none
  | .complete i =>
    match s.spaces[i]? with
    | some space =>
      if s.phase[i]? = some Phase.calling then
        let done := afterCall json s.spaces i (detailCall client s.ctx space.ID)
        some { s with spaces := done.1, phase := s.phase.set i (Phase.returned done.2),
                      sem := s.sem - 1 }
      else none
    | none => none
  | .record i =>
    match s.phase[i]? with
    | some (Phase.returned (some err)) =>
      match s.err with
      | some _ => some { s with phase := s.phase.set i Phase.failed }
      | none =>
        some { s with phase := s.phase.set i Phase.failed,
                      err := some err,
                      ctxErr := match s.ctxErr with
                        | some done => some done
                        | none => some GoError.canceled }
    | some (Phase.returned none) =>
      some { s with phase := s.phase.set i Phase.finished }
    | _ => none

/-- The steps of a schedule, in order. -/
def run (json : JSON) (client : SynapseClientInterface) :
    Enrichment → List Action → Option Enrichment
  | s, [] => some s
  | s, a :: rest =>
    match step json client s a with
    | some s1 => run json client s1 rest
    | none => none

/-- The task has returned and the group has taken note (`wg.Done`). -/
def Phase.isDone : Phase → Bool
  | .finished => true
  | .failed => true
  | _ => false

/-- The task holds a slot of the semaphore. -/
def Phase.holdsSlot : Phase → Bool
  | .admitted => true
  | .calling => true
  | _ => false

/-- The task is inside its detail call. -/
def Phase.inFlight : Phase → Bool
  | .calling => true
  | _ => false

/-- The state after the loop of lines 80-124 has spawned one task per
space. -/
def spawn (spaces : List Space) : Enrichment :=
  { spaces := spaces, phase := spaces.map (fun _ => Phase.waiting), sem := 0,
    err := none, ctxErr := none, calls := [] }

/-- The condition under which `g.Wait()` returns: every task is done. -/
def Enrichment.allDone (s : Enrichment) : Bool :=
  s.phase.all Phase.isDone

/-- The number of detail calls in flight. -/
def Enrichment.inFlight (s : Enrichment) : Nat :=
  s.phase.countP Phase.inFlight

/-- The number of tasks holding a slot. -/
def Enrichment.holders (s : Enrichment) : Nat :=
  s.phase.countP Phase.holdsSlot

/-! ## `GetSpaces` (rooms.go, lines 54-137) -/

/-- What a run of `GetSpaces` yields: the two returned values, and the paths
of the detail calls it made on the transport. -/
structure Outcome where
  spaces : List Space
  err : Option GoError
  detailCalls : List String
  deriving DecidableEq, Repr

/-- Lines 126-136: `g.Wait()` and the two returns after it. -/
def wait (s : Enrichment) : Option Outcome :=
  if s.allDone then
    match s.err with
    | some err => some { spaces := [], err := some err, detailCalls := s.calls }
    | none => some { spaces := s.spaces, err := none, detailCalls := s.calls }
  else none

/-- The function `GetSpaces`, run under the schedule `sched`. -/
def GetSpaces (json : JSON) (client : SynapseClientInterface) (sched : List Action) :
    Option Outcome :=
  let listing := listingCall client
  match listing.2 with
  | some err => some { spaces := [], err := some err, detailCalls := [] }
  | none =>
    let parsed := parseSpaces json listing.1
    match parsed.2 with
    | some err => some { spaces := parsed.1, err := some err, detailCalls := [] }
    | none =>
      match run json client (spawn parsed.1) sched with
      | some s => wait s
      | none => none

/-- The four actions of a task that is admitted, in order. -/
def taskActions (i : Nat) : List Action :=
  [Action.acquire i, Action.issue i, Action.complete i, Action.record i]

/-- The schedule that runs the first `n` tasks one after the other, in index
order. -/
def sequential : Nat → List Action
  | 0 => []
  | n + 1 => sequential n ++ taskActions n


/-! ## The test double and the payloads of rooms_test.go -/

/-- The type `MockClient` of rooms_test.go, lines 28-32; a map is the list of
its entries. -/
structure MockClient where
  Responses : List (String × Bytes)
  Errors : List (String × GoError)

/-- The method `MockClient.Call` of rooms_test.go, lines 34-42. -/
def MockClient.Call (m : MockClient) (_ctx : Context) (path : String) (_method : String)
    (_payload : Option Bytes) (_retry : Bool) : Bytes × Option GoError :=
  match m.Errors.lookup path with
  | some err => ("", some err)
  | none =>
    match m.Responses.lookup path with
    | some resp => (resp, none)
    | none => ("", some (GoError.errorString ("no mock response for path: " ++ path)))

/-- A `MockClient` seen through the interface; it does not look at the
context. -/
def MockClient.client (m : MockClient) : SynapseClientInterface :=
  { Call := m.Call, honours := fun _ _ _ _ _ => Or.inr rfl }

/-- The listing payload of the case "single space, two children" (line 57). -/
def room1Listing : Bytes :=
  "\x7b\"chunk\": [\x7b\"room_id\": \"!room1:xentonix.net\", \"name\": \"Ubuntu Community\", \"num_joined_members\": 1500\x7d]\x7d"

/-- The detail payload of the case "single space, two children" (line 58). -/
def twoChildrenState : Bytes :=
  "\x7b\"state\": [\x7b\"type\": \"m.space.child\", \"state_key\": \"!child1:matrix.org\"\x7d, \x7b\"type\": \"m.space.child\", \"state_key\": \"!child2:matrix.org\"\x7d]\x7d"

/-- The listing payload of the case "no spaces" (line 77). -/
def emptyListing : Bytes := "\x7b\"chunk\": []\x7d"

/-- The listing payload of the case "malformed state json" (line 85). -/
def room2Listing : Bytes :=
  "\x7b\"chunk\": [\x7b\"room_id\": \"!room2:matrix.org\", \"name\": \"Test\", \"num_joined_members\": 1\x7d]\x7d"

/-- The detail payload of the case "malformed state json" (line 86). -/
def malformedState : Bytes := "\x7b\"state\": [\x7d"

/-- A listing payload like that of line 85, for another room. -/
def room3Listing : Bytes :=
  "\x7b\"chunk\": [\x7b\"room_id\": \"!room3:matrix.org\", \"name\": \"Test\", \"num_joined_members\": 1\x7d]\x7d"

/-- A detail payload in which two child events carry the same state key. -/
def repeatedChildState : Bytes :=
  "\x7b\"state\": [\x7b\"type\": \"m.space.child\", \"state_key\": \"!child1:matrix.org\"\x7d, \x7b\"type\": \"m.space.child\", \"state_key\": \"!child1:matrix.org\"\x7d]\x7d"

/-- The error of `json.Unmarshal` on the payload `malformedState`: a
`*json.SyntaxError` at the closing brace. -/
def syntaxError : GoError :=
  GoError.syntaxError "invalid character \x27\x7d\x27 looking for beginning of value" 12

/-- What `json.Unmarshal` answers on the payloads above; every other input is
taken as malformed. -/
def fixtureJSON : JSON where
  UnmarshalPublicRooms := fun data =>
    if data = room1Listing then
      .ok [{ RoomID := "!room1:xentonix.net", Name := "Ubuntu Community",
             NumJoinedMembers := 1500 }]
    else if data = emptyListing then .ok []
    else if data = room2Listing then
      .ok [{ RoomID := "!room2:matrix.org", Name := "Test", NumJoinedMembers := 1 }]
    else if data = room3Listing then
      .ok [{ RoomID := "!room3:matrix.org", Name := "Test", NumJoinedMembers := 1 }]
    else .error syntaxError
  UnmarshalState := fun data =>
    if data = twoChildrenState then
      .ok [{ TypeString := "m.space.child", StateKey := some "!child1:matrix.org" },
           { TypeString := "m.space.child", StateKey := some "!child2:matrix.org" }]
    else if data = repeatedChildState then
      .ok [{ TypeString := "m.space.child", StateKey := some "!child1:matrix.org" },
           { TypeString := "m.space.child", StateKey := some "!child1:matrix.org" }]
    else .error syntaxError

/-- The test double of the case "single space, two children". -/
def twoChildrenMock : MockClient :=
  { Responses := [(publicRoomsPath, room1Listing),
                  ("/_synapse/admin/v1/rooms/!room1:xentonix.net/state", twoChildrenState)],
    Errors := [] }

/-- The test double of the case "publicRooms error"; `assert.AnError` is the
error below. -/
def listingErrorMock : MockClient :=
  { Responses := [],
    Errors := [(publicRoomsPath,
      GoError.errorString "assert.AnError general error for testing")] }

/-- The test double of the case "no spaces". -/
def noSpacesMock : MockClient :=
  { Responses := [(publicRoomsPath, emptyListing)], Errors := [] }

/-- The test double of the case "malformed state json". -/
def malformedStateMock : MockClient :=
  { Responses := [(publicRoomsPath, room2Listing),
                  ("/_synapse/admin/v1/rooms/!room2:matrix.org/state", malformedState)],
    Errors := [] }

/-- The same test double for the room `!room3:matrix.org`. -/
def malformedStateMock3 : MockClient :=
  { Responses := [(publicRoomsPath, room3Listing),
                  ("/_synapse/admin/v1/rooms/!room3:matrix.org/state", malformedState)],
    Errors := [] }

/-- A test double whose detail payload repeats a state key. -/
def repeatedChildMock : MockClient :=
  { Responses := [(publicRoomsPath, room1Listing),
                  ("/_synapse/admin/v1/rooms/!room1:xentonix.net/state", repeatedChildState)],
    Errors := [] }
/-! ## Predicates used in the statements -/

/-- The child identifiers of a state-event collection, in the words of the
specification: the state keys, in payload order, of the events whose type is
`m.space.child` and whose state key is not null. -/
def childKeys (state : List Event) : List String :=
  state.filterMap
    (fun event => if event.TypeString = "m.space.child" then event.StateKey else none)

/-- The space `space` after the merge of the children counted in `state`. -/
def enrich (space : Space) (state : List Event) : Space :=
  { space with ChildCount := space.ChildCount + (countChildren state).1,
               ChildRooms := space.ChildRooms ++ (countChildren state).2 }

/-- Where the error `e` of the task of the space `space0` comes from:
the transport returned it for the detail call, under a live context or, once
the deadline has expired, under the expired one; or the detail call succeeded
and `json.Unmarshal` returned `e` on its payload; or the deadline had expired
and the `select` took `<-ctx.Done()`, so that `e` is `ctx.Err()`. -/
def Source (json : JSON) (client : SynapseClientInterface) (expired : Prop) (space0 : Space)
    (e : GoError) : Prop :=
  (∃ ctx : Context,
      (ctx = { Err := none } ∨ (expired ∧ ctx = { Err := some GoError.deadlineExceeded })) ∧
      (detailCall client ctx space0.ID).2 = some e) ∨
  ((detailCall client { Err := none } space0.ID).2 = none ∧
      json.UnmarshalState (detailCall client { Err := none } space0.ID).1 = .error e) ∨
  (expired ∧ e = GoError.deadlineExceeded)

/-- What holds of task `i` in every reachable state: `space0` is the space
as the listing gave it, `space` the current `spaces[i]`, `err` the error of
the group, `expired` says that the deadline expired before the context was
done otherwise. -/
def TaskInv (json : JSON) (client : SynapseClientInterface) (err : Option GoError)
    (expired : Prop) (space0 : Space) (space : Space) : Phase → Prop
  | .returned none => ∃ state,
      fetchState json (detailCall client { Err := none } space0.ID) = .ok state ∧
      space = enrich space0 state
  | .finished => ∃ state,
      fetchState json (detailCall client { Err := none } space0.ID) = .ok state ∧
      space = enrich space0 state
  | .returned (some e) => space = space0 ∧ (err = none → Source json client expired space0 e)
  | .failed => space = space0 ∧ err.isSome
  | .waiting => space = space0
  | .admitted => space = space0
  | .calling => space = space0

/-- The deadline expired while the context of the group was not done. -/
def Enrichment.expired (s : Enrichment) : Prop :=
  s.ctxErr = some GoError.deadlineExceeded

/-- The invariant of the enrichment phase started on `spaces0`. -/
structure Inv (json : JSON) (client : SynapseClientInterface) (spaces0 : List Space)
    (s : Enrichment) : Prop where
  len_spaces : s.spaces.length = spaces0.length
  len_phase : s.phase.length = spaces0.length
  sem_eq : s.sem = s.holders
  sem_le : s.sem ≤ maxConcurrentRequests
  ctx_ok : s.ctxErr = none ∨ s.ctxErr = some GoError.deadlineExceeded ∨
    (s.ctxErr = some GoError.canceled ∧ s.err.isSome)
  err_ctx : s.err.isSome → s.ctxErr.isSome
  task : ∀ (i : Nat) (space0 space : Space) (ph : Phase), spaces0[i]? = some space0 →
    s.spaces[i]? = some space → s.phase[i]? = some ph →
    TaskInv json client s.err s.expired space0 space ph
  origin : ∀ e, s.err = some e → ∃ (i : Nat) (space0 : Space), spaces0[i]? = some space0 ∧
    Source json client s.expired space0 e


/-! ## Readings of the claims that the code does not meet -/

/-- The reading of "the error carries the identifier of the affected record":
the identifier can be read off the error value by `recordOf`.  It is stated
for listings of a single record, where the affected record is that one. -/
def ErrorNamesRecord (json : JSON) (recordOf : GoError → String) : Prop :=
  ∀ (client : SynapseClientInterface) (sched : List Action) (out : Outcome) (e : GoError)
    (room : PublicRoomInfo),
    (listingCall client).2 = none →
    json.UnmarshalPublicRooms (listingCall client).1 = .ok [room] →
    GetSpaces json client sched = some out → out.err = some e →
    recordOf e = room.RoomID

/-- The reading of "a typed error that distinguishes network failure, decode
failure and cancellation": the class of the failure can be read off the error
value by `kindOf`.  It is stated for listings of a single record and runs in
which the deadline does not expire, where the failure is that of the detail
call of that record (network) or, when the call succeeded, that of the
decoding of its payload (decode). -/
def ErrorTellsKind (json : JSON) (kindOf : GoError → FailureKind) : Prop :=
  ∀ (client : SynapseClientInterface) (sched : List Action) (out : Outcome) (e : GoError)
    (room : PublicRoomInfo),
    Action.expire ∉ sched →
    (listingCall client).2 = none →
    json.UnmarshalPublicRooms (listingCall client).1 = .ok [room] →
    GetSpaces json client sched = some out → out.err = some e →
    kindOf e =
      if (detailCall client { Err := none } room.RoomID).2 = none then FailureKind.decode
      else FailureKind.network

/-- A test double whose detail call fails with an error value of the type
`*json.SyntaxError`. -/
def syntaxErrorMock : MockClient :=
  { Responses := [(publicRoomsPath, room2Listing)],
    Errors := [("/_synapse/admin/v1/rooms/!room2:matrix.org/state", syntaxError)] }

/-! ## A run with more spaces than slots -/

/-- Twelve spaces as `parseSpaces` returns them. -/
def twelveSpaces : List Space :=
  List.replicate 12
    (newSpace
      { RoomID := "!room1:xentonix.net", Name := "Ubuntu Community", NumJoinedMembers := 1500 })

/-- The first ten tasks are admitted and enter their detail calls. -/
def tenAdmissions : List Action :=
  (List.range 10).map Action.acquire ++ (List.range 10).map Action.issue

/-- The state that `tenAdmissions` leads to. -/
def tenInFlight : Enrichment :=
  { spaces := twelveSpaces,
    phase := List.replicate 10 Phase.calling ++ [Phase.waiting, Phase.waiting],
    sem := 10,
    err := none,
    ctxErr := none,
    calls := List.replicate 10 "/_synapse/admin/v1/rooms/!room1:xentonix.net/state" }

/-! ## The HTTP `Call` (client.go, lines 58-122; requester.go, lines 37-92) -/

/-- Modelled from the spec: the type `internal.Config`, whose declaration is
not among the sources: the configuration "supplies base URL, bearer
credential, and timeout".  The field names are those used in client.go,
requester.go and cmd/root.go. -/
structure Config where
  BaseURL : String
  AccessToken : String
  Timeout : Int
  deriving DecidableEq, Repr

/-- An `*http.Client`: its timeout, in seconds. -/
structure HTTPClient where
  Timeout : Int
  deriving DecidableEq, Repr

/-- An `*http.Request` as far as `Call` builds it. -/
structure Request where
  ctx : Context
  Method : String
  URL : String
  Body : Option Bytes
  Authorization : String
  deriving DecidableEq, Repr

/-- An `*http.Response` as far as `Call` reads it; `Body` is what
`io.ReadAll(resp.Body)` returns. -/
structure Response where
  StatusCode : Int
  Status : String
  Body : Bytes × Option GoError
  deriving DecidableEq, Repr

/-- Package `net/http` and the network behind it, and the clock of package
`backoff`. -/
structure HTTP where
  /-- The error of `http.NewRequestWithContext` for a method and a URL, if
  it has one. -/
  NewRequestError : String → String → Option GoError
  /-- The result of the `attempt`-th call of `client.Do` (counted from 0).
  The request is the object as `Call` built it; on an attempt after the first
  its body reader has been read already, which the number of the attempt
  tells. -/
  Do : HTTPClient → Nat → Request → Except GoError Response
  /-- How many times `NextBackOff` answers a delay before it answers `Stop`
  (a matter of elapsed time, at most `maxElapsedTime`). -/
  Retries : Nat

/-- What a `Call` returns, and the number of times it called `client.Do`. -/
structure CallResult where
  output : Bytes
  err : Option GoError
  attempts : Nat
  deriving DecidableEq, Repr

/-- The function `http.NewRequestWithContext`. -/
def NewRequestWithContext (http : HTTP) (ctx : Context) (method url : String)
    (body : Option Bytes) : Except GoError Request :=
  match http.NewRequestError method url with
  | some err => .error err
  | none => .ok { ctx := ctx, Method := method, URL := url, Body := body, Authorization := "" }

/-- The constants `http.StatusOK`, `http.StatusCreated`, `http.StatusNoContent`. -/
def StatusOK : Int := 200

def StatusCreated : Int := 201

def StatusNoContent : Int := 204

/-- One attempt: `client.Do`, the status check and `io.ReadAll`, with the
error texts of client.go (lines 73-91 and 101-119).  `request` is the word
that starts the messages: "request" in client.go, "Request" in requester.go;
`failed` the one that starts the last message. -/
def attempt (http : HTTP) (client : HTTPClient) (n : Nat) (req : Request) (synapseURL : String)
    (request failed : String) : Bytes × Option GoError :=
  match http.Do client n req with
  | .error err =>
    ("", some (GoError.errorString (request ++ " to " ++ synapseURL ++ " failed: " ++ err.Error)))
  | .ok resp =>
    if resp.StatusCode ≠ StatusOK ∧ resp.StatusCode ≠ StatusCreated ∧
        resp.StatusCode ≠ StatusNoContent then
      ("", some (GoError.errorString
        (request ++ " to " ++ synapseURL ++ " returned unexpected status: " ++ resp.Status)))
    else
      match resp.Body with
      | (_, some err) =>
        ("", some (GoError.errorString
          (failed ++ " to read response body from " ++ synapseURL ++ ": " ++ err.Error)))
      | (body, none) => (body, none)

/-- The loop of `backoff.Retry` around the operation of `callWithRetry`:
`n` attempts have been made, `retries` delays are left. -/
def retryLoop (http : HTTP) (client : HTTPClient) (req : Request) (synapseURL : String)
    (request failed : String) : Nat → Nat → CallResult
  | 0, n =>
    match attempt http client n req synapseURL request failed with
    | (body, none) => { output := body, err := none, attempts := n + 1 }
    | (_, some err) => { output := "", err := some err, attempts := n + 1 }
  | retries + 1, n =>
    match attempt http client n req synapseURL request failed with
    | (body, none) => { output := body, err := none, attempts := n + 1 }
    | (_, some _) => retryLoop http client req synapseURL request failed retries (n + 1)

/-- The function `callWithRetry` (of either file). -/
def callWithRetry (http : HTTP) (client : HTTPClient) (req : Request) (synapseURL : String)
    (request failed : String) : CallResult :=
  retryLoop http client req synapseURL request failed http.Retries 0

/-- The body shared by the two implementations of `Call`, which differ in
the client they use and in the capital letter of their messages. -/
def callWith (http : HTTP) (client : HTTPClient) (config : Config) (request failed : String)
    (ctx : Context) (path method : String) (payload : Option Bytes) (retry : Bool) :
    CallResult :=
  let output : Bytes := ""
  let synapseURL := config.BaseURL ++ path
  let sendBody : Option Bytes := if method = "POST" ∧ payload ≠ none then payload else none
  match NewRequestWithContext http ctx method synapseURL sendBody with
  | .error err =>
    { output := output,
      err := some (GoError.errorString
        (request ++ " to " ++ synapseURL ++ " failed: " ++ err.Error)),
      attempts := 0 }
  | .ok req0 =>
    let req := { req0 with Authorization := "Bearer " ++ config.AccessToken }
    if retry then callWithRetry http client req synapseURL request failed
    else
      let once := attempt http client 0 req synapseURL request failed
      { output := once.1, err := once.2, attempts := 1 }

/-- The type `SynapseClient` of client.go, lines 38-41. -/
structure SynapseClient where
  Client : HTTPClient
  Config : Config

/-- The method `SynapseClient.Call` of client.go, lines 58-92. -/
def SynapseClient.Call (http : HTTP) (s : SynapseClient) (ctx : Context) (path method : String)
    (payload : Option Bytes) (retry : Bool) : CallResult :=
  callWith http s.Client s.Config "request" "failed" ctx path method payload retry

/-- The function `Call` of requester.go, lines 37-67. -/
def Call (http : HTTP) (ctx : Context) (config : Config) (path method : String)
    (payload : Option Bytes) (retry : Bool) : CallResult :=
  callWith http { Timeout := config.Timeout } config "Request" "Failed" ctx path method payload
    retry

/-- The request both implementations send for a path, a method and a
payload. -/
def requestFor (config : Config) (ctx : Context) (path method : String)
    (payload : Option Bytes) : Request :=
  { ctx := ctx, Method := method, URL := config.BaseURL ++ path,
    Body := if method = "POST" ∧ payload ≠ none then payload else none,
    Authorization := "Bearer " ++ config.AccessToken }

/-- The contract of a `Call` without retry, in the words of the
specification: at most one attempt; the response body and a nil error exactly
when the request was built, the attempt completed, the status is one of 200,
201 and 204 and the body was read; otherwise a non-nil error and an empty
output. -/
def SingleAttemptContract (http : HTTP) (client : HTTPClient) (method : String)
    (req : Request) (r : CallResult) : Prop :=
  r.attempts ≤ 1 ∧
  (∀ body, (r.err = none ∧ r.output = body) ↔
    (http.NewRequestError method req.URL = none ∧
      ∃ resp, http.Do client 0 req = .ok resp ∧
        (resp.StatusCode = 200 ∨ resp.StatusCode = 201 ∨ resp.StatusCode = 204) ∧
        resp.Body = (body, none))) ∧
  (r.err ≠ none → r.output = "")

/-- A server used in the examples: it answers 200 with the body `"ok"` on the
path `/good`, and 404 elsewhere. -/
def fixtureHTTP : HTTP where
  NewRequestError := fun _ _ => none
  Do := fun _ _ req =>
    if req.URL = "https://matrix.example/good" then
      .ok { StatusCode := 200, Status := "200 OK", Body := ("ok", none) }
    else .ok { StatusCode := 404, Status := "404 Not Found", Body := ("", none) }
  Retries := 3

/-- A configuration used in the examples. -/
def fixtureConfig : Config :=
  { BaseURL := "https://matrix.example", AccessToken := "token", Timeout := 30 }

/-! ## A measure of progress -/

/-- How many actions task `i` has behind it, at least, when it stands in a
phase; a task that is done counts as four. -/
def Phase.rank : Phase → Nat
  | .waiting => 0
  | .admitted => 1
  | .calling => 2
  | .returned _ => 3
  | .finished => 4
  | .failed => 4

/-- The sum of the ranks of the tasks. -/
def rankSum : List Phase → Nat
  | [] => 0
  | ph :: rest => ph.rank + rankSum rest

/-! ## `Space.Header` and `Space.Row` (rooms.go, lines 43-49) -/

/-- A value held in the `[]interface{}` that `Row` returns: a `string` or an
`int`. -/
inductive Cell where
  | string (v : String)
  | int (v : Int)
  deriving DecidableEq, Repr

/-- The function `strings.Join` of the Go library: nothing for no element,
the element itself for one, otherwise the first element followed by the
separator and the next element, for every further element in order. -/
def strings.Join : List String → String → String
  | [], _ => ""
  | [a], _ => a
  | a :: rest, sep => rest.foldl (fun b s => b ++ sep ++ s) a

/-- The method `Space.Header`. -/
def Space.Header (_s : Space) : List String :=
  ["Name", "Members", "Child Count", "Child Rooms"]

/-- The method `Space.Row`. -/
def Space.Row (s : Space) : List Cell :=
  [Cell.string s.Name, Cell.int s.Members, Cell.int s.ChildCount,
   Cell.string (strings.Join s.ChildRooms ",")]

/-! ## Two spaces whose tasks complete in either order -/

/-- A listing payload with the two rooms of rooms_test.go. -/
def pairListing : Bytes :=
  "\x7b\"chunk\": [\x7b\"room_id\": \"!room1:xentonix.net\", \"name\": \"Ubuntu Community\", \"num_joined_members\": 1500\x7d, \x7b\"room_id\": \"!room2:matrix.org\", \"name\": \"Test\", \"num_joined_members\": 1\x7d]\x7d"

/-- A detail payload with one child event and one event of another type. -/
def oneChildState : Bytes :=
  "\x7b\"state\": [\x7b\"type\": \"m.room.name\", \"state_key\": \"\"\x7d, \x7b\"type\": \"m.space.child\", \"state_key\": \"!child3:matrix.org\"\x7d]\x7d"

/-- The decoder `fixtureJSON`, which also knows the two payloads above. -/
def pairJSON : JSON where
  UnmarshalPublicRooms := fun data =>
    if data = pairListing then
      .ok [{ RoomID := "!room1:xentonix.net", Name := "Ubuntu Community",
             NumJoinedMembers := 1500 },
           { RoomID := "!room2:matrix.org", Name := "Test", NumJoinedMembers := 1 }]
    else fixtureJSON.UnmarshalPublicRooms data
  UnmarshalState := fun data =>
    if data = oneChildState then
      .ok [{ TypeString := "m.room.name", StateKey := some "" },
           { TypeString := "m.space.child", StateKey := some "!child3:matrix.org" }]
    else fixtureJSON.UnmarshalState data

/-- A test double with two spaces, each with its own detail response. -/
def pairMock : MockClient :=
  { Responses := [(publicRoomsPath, pairListing),
                  ("/_synapse/admin/v1/rooms/!room1:xentonix.net/state", twoChildrenState),
                  ("/_synapse/admin/v1/rooms/!room2:matrix.org/state", oneChildState)],
    Errors := [] }

theorem parseSpaces.loop_eq_map (chunk : List PublicRoomInfo) :
    parseSpaces.loop chunk = chunk.map newSpace := by
  have h : ∀ (l : List PublicRoomInfo) (acc : List Space),
      l.foldl (fun spaces room => spaces ++ [newSpace room]) acc = acc ++ l.map newSpace := by
    intro l
    induction l with
    | nil => intro acc; simp
    | cons room rest ih => intro acc; simp [ih]
  simpa [parseSpaces.loop] using h chunk []

theorem countChildren_eq (state : List Event) :
    countChildren state = (((childKeys state).length : Int), childKeys state) := by
  have h : ∀ (l : List Event) (acc : Int × List String),
      l.foldl
        (fun acc event =>
          match event.StateKey with
          | some key =>
            if event.TypeString = "m.space.child" then (acc.1 + 1, acc.2 ++ [key]) else acc
          | none => acc) acc
      = (acc.1 + ((childKeys l).length : Int), acc.2 ++ childKeys l) := by
    intro l
    induction l with
    | nil => intro acc; simp [childKeys]
    | cons event rest ih =>
      intro acc
      rw [List.foldl_cons, ih]
      cases hk : event.StateKey with
      | none => simp [childKeys, hk]
      | some key =>
        by_cases ht : event.TypeString = "m.space.child"
        · simp [childKeys, hk, ht, List.filterMap_cons]
          omega
        · simp [childKeys, hk, ht, List.filterMap_cons]
  simpa [countChildren] using h state (0, [])

theorem merge_length (spaces : List Space) (i : Nat) (c : Int) (r : List String) :
    (merge spaces i c r).length = spaces.length := by
  unfold merge
  split <;> simp

theorem merge_getElem?_ne (spaces : List Space) (i j : Nat) (c : Int) (r : List String)
    (h : i ≠ j) : (merge spaces i c r)[j]? = spaces[j]? := by
  unfold merge
  split
  · simp [List.getElem?_set_ne h]
  · rfl

theorem merge_getElem?_self (spaces : List Space) (i : Nat) (c : Int) (r : List String)
    (space : Space) (h : spaces[i]? = some space) :
    (merge spaces i c r)[i]? =
      some { space with ChildCount := space.ChildCount + c, ChildRooms := space.ChildRooms ++ r } := by
  have hlt : i < spaces.length := (List.getElem?_eq_some.mp h).1
  simp [merge, h, List.getElem?_set, hlt]

theorem afterCall_length (json : JSON) (spaces : List Space) (i : Nat)
    (resp : Bytes × Option GoError) : (afterCall json spaces i resp).1.length = spaces.length := by
  unfold afterCall
  split <;> simp [merge_length]

theorem afterCall_getElem?_ne (json : JSON) (spaces : List Space) (i j : Nat)
    (resp : Bytes × Option GoError) (h : i ≠ j) :
    (afterCall json spaces i resp).1[j]? = spaces[j]? := by
  unfold afterCall
  split
  · rfl
  · simp [merge_getElem?_ne _ _ _ _ _ h]

/-! ## The steps -/

theorem step_cases {json : JSON} {client : SynapseClientInterface} {s s1 : Enrichment}
    {a : Action} (h : step json client s a = some s1) :
    (a = Action.expire ∧ s.ctxErr = none ∧
        s1 = { s with ctxErr := some GoError.deadlineExceeded }) ∨
    (∃ i, a = Action.acquire i ∧ s.phase[i]? = some Phase.waiting ∧
        s.sem < maxConcurrentRequests ∧
        s1 = { s with phase := s.phase.set i Phase.admitted, sem := s.sem + 1 }) ∨
    (∃ i done, a = Action.abort i ∧ s.phase[i]? = some Phase.waiting ∧ s.ctxErr = some done ∧
        s1 = { s with phase := s.phase.set i (Phase.returned (some done)) }) ∨
    (∃ i space, a = Action.issue i ∧ s.spaces[i]? = some space ∧
        s.phase[i]? = some Phase.admitted ∧
        s1 = { s with phase := s.phase.set i Phase.calling,
                      calls := s.calls ++ [statePath space.ID] }) ∨
    (∃ i space, a = Action.complete i ∧ s.spaces[i]? = some space ∧
        s.phase[i]? = some Phase.calling ∧
        s1 = { s with
          spaces := (afterCall json s.spaces i (detailCall client s.ctx space.ID)).1,
          phase := s.phase.set i
            (Phase.returned (afterCall json s.spaces i (detailCall client s.ctx space.ID)).2),
          sem := s.sem - 1 }) ∨
    (∃ i err first, a = Action.record i ∧ s.phase[i]? = some (Phase.returned (some err)) ∧
        s.err = some first ∧ s1 = { s with phase := s.phase.set i Phase.failed }) ∨
    (∃ i err, a = Action.record i ∧ s.phase[i]? = some (Phase.returned (some err)) ∧
        s.err = none ∧
        s1 = { s with phase := s.phase.set i Phase.failed,
                      err := some err,
                      ctxErr := match s.ctxErr with
                        | some done => some done
                        | none => some GoError.canceled }) ∨
    (∃ i, a = Action.record i ∧ s.phase[i]? = some (Phase.returned none) ∧
        s1 = { s with phase := s.phase.set i Phase.finished }) := by
  cases a with
  | expire =>
    simp only [step] at h
    split at h
    · rename_i hc
      left
      exact ⟨rfl, hc, (Option.some.inj h).symm⟩
    · exact absurd h (by simp)
  | acquire i =>
    simp only [step] at h
    split at h
    · rename_i hc
      right; left
      exact ⟨i, rfl, hc.1, hc.2, (Option.some.inj h).symm⟩
    · exact absurd h (by simp)
  | abort i =>
    simp only [step] at h
    split at h
    · rename_i done hc
      split at h
      · rename_i hp
        right; right; left
        exact ⟨i, done, rfl, hp, hc, (Option.some.inj h).symm⟩
      · exact absurd h (by simp)
    · exact absurd h (by simp)
  | issue i =>
    simp only [step] at h
    split at h
    · rename_i space hs
      split at h
      · rename_i hp
        right; right; right; left
        exact ⟨i, space, rfl, hs, hp, (Option.some.inj h).symm⟩
      · exact absurd h (by simp)
    · exact absurd h (by simp)
  | complete i =>
    simp only [step] at h
    split at h
    · rename_i space hs
      split at h
      · rename_i hp
        right; right; right; right; left
        exact ⟨i, space, rfl, hs, hp, (Option.some.inj h).symm⟩
      · exact absurd h (by simp)
    · exact absurd h (by simp)
  | record i =>
    simp only [step] at h
    split at h
    · rename_i err hp
      split at h
      · rename_i first hfirst
        right; right; right; right; right; left
        exact ⟨i, err, first, rfl, hp, hfirst, (Option.some.inj h).symm⟩
      · rename_i hnone
        right; right; right; right; right; right; left
        exact ⟨i, err, rfl, hp, hnone, (Option.some.inj h).symm⟩
    · rename_i hp
      right; right; right; right; right; right; right
      exact ⟨i, rfl, hp, (Option.some.inj h).symm⟩
    · exact absurd h (by simp)

theorem run_append (json : JSON) (client : SynapseClientInterface) (s : Enrichment)
    (as bs : List Action) :
    run json client s (as ++ bs) =
      match run json client s as with
      | some s1 => run json client s1 bs
      | none => none := by
  induction as generalizing s with
  | nil => simp [run]
  | cons a rest ih =>
    simp only [List.cons_append, run]
    cases step json client s a with
    | none => rfl
    | some s1 => exact ih s1

theorem run_invariant {json : JSON} {client : SynapseClientInterface} (P : Enrichment → Prop)
    (hstep : ∀ s a s1, P s → step json client s a = some s1 → P s1) :
    ∀ (sched : List Action) (s s1 : Enrichment), P s → run json client s sched = some s1 → P s1 := by
  intro sched
  induction sched with
  | nil =>
    intro s s1 hP h
    simp only [run] at h
    exact (Option.some.inj h) ▸ hP
  | cons a rest ih =>
    intro s s1 hP h
    simp only [run] at h
    cases hs : step json client s a with
    | none => rw [hs] at h; exact absurd h (by simp)
    | some s2 =>
      rw [hs] at h
      exact ih s2 s1 (hstep s a s2 hP hs) h

/-! ## The invariant -/

theorem getElem?_set_some {α : Type} {l : List α} {i j : Nat} {a b : α}
    (h : (l.set i a)[j]? = some b) : (i = j ∧ b = a) ∨ (i ≠ j ∧ l[j]? = some b) := by
  rw [List.getElem?_set] at h
  by_cases hij : i = j
  · left
    rw [if_pos hij] at h
    split at h
    · exact ⟨hij, (Option.some.inj h).symm⟩
    · exact absurd h (by simp)
  · right
    rw [if_neg hij] at h
    exact ⟨hij, h⟩

theorem countP_set_getElem? (p : Phase → Bool) (l : List Phase) (i : Nat) (a b : Phase)
    (h : l[i]? = some a) :
    List.countP p (l.set i b) + (if p a = true then 1 else 0) =
      List.countP p l + (if p b = true then 1 else 0) := by
  obtain ⟨hlt, hget⟩ := List.getElem?_eq_some.mp h
  rw [List.countP_set p l i b hlt, hget]
  by_cases hpa : p a = true
  · have hpos : 0 < List.countP p l :=
      List.countP_pos_iff.mpr ⟨a, List.mem_iff_getElem?.mpr ⟨i, h⟩, hpa⟩
    simp only [hpa, if_true]
    omega
  · rw [if_neg hpa]
    omega

theorem source_mono {json : JSON} {client : SynapseClientInterface} {expired expired1 : Prop}
    {space0 : Space} {e : GoError} (hexp : expired → expired1)
    (h : Source json client expired space0 e) : Source json client expired1 space0 e := by
  rcases h with ⟨ctx, hctx, hcall⟩ | hdec | ⟨hx, he⟩
  · refine Or.inl ⟨ctx, ?_, hcall⟩
    rcases hctx with hlive | ⟨hx, hdead⟩
    · exact Or.inl hlive
    · exact Or.inr ⟨hexp hx, hdead⟩
  · exact Or.inr (Or.inl hdec)
  · exact Or.inr (Or.inr ⟨hexp hx, he⟩)

theorem taskInv_mono {json : JSON} {client : SynapseClientInterface} {err err1 : Option GoError}
    {expired expired1 : Prop} {space0 space : Space} {ph : Phase}
    (herr : err1 = none → err = none) (hexp : expired → expired1)
    (h : TaskInv json client err expired space0 space ph) :
    TaskInv json client err1 expired1 space0 space ph := by
  have hsome : err.isSome = true → err1.isSome = true := by
    intro he
    cases err1 with
    | none => rw [herr rfl] at he; exact absurd he (by simp)
    | some e => rfl
  cases ph with
  | waiting => exact h
  | admitted => exact h
  | calling => exact h
  | finished => exact h
  | failed => exact ⟨h.1, hsome h.2⟩
  | returned r =>
    cases r with
    | none => exact h
    | some e => exact ⟨h.1, fun h1 => source_mono hexp (h.2 (herr h1))⟩

theorem inv_spawn (json : JSON) (client : SynapseClientInterface) (spaces0 : List Space) :
    Inv json client spaces0 (spawn spaces0) := by
  refine ⟨rfl, by simp [spawn], ?_, by simp [spawn], Or.inl rfl, by simp [spawn], ?_, ?_⟩
  · simp only [spawn, Enrichment.holders]
    induction spaces0 with
    | nil => rfl
    | cons a l ih => simpa [List.countP_cons, Phase.holdsSlot] using ih
  · intro i space0 space ph h0 hs hp
    simp only [spawn] at hs hp
    rw [List.getElem?_map] at hp
    rw [hs] at h0
    cases Option.some.inj h0
    rw [hs] at hp
    cases Option.some.inj hp
    rfl
  · intro e he
    simp [spawn] at he

/-- The response of a detail call that succeeded is the response under a live
context. -/
theorem detailCall_ok_live (client : SynapseClientInterface) (ctx : Context) (id : String)
    (h : (detailCall client ctx id).2 = none) :
    detailCall client ctx id = detailCall client { Err := none } id := by
  rcases client.honours ctx (statePath id) "GET" none false with hne | heq
  · exact absurd h hne
  · exact heq

theorem inv_step {json : JSON} {client : SynapseClientInterface} {spaces0 : List Space}
    {s s1 : Enrichment} {a : Action} (hinv : Inv json client spaces0 s)
    (h : step json client s a = some s1) : Inv json client spaces0 s1 := by
  obtain ⟨hls, hlp, hsem, hle, hctx, herrctx, htask, horig⟩ := hinv
  simp only [Enrichment.holders] at hsem
  rcases step_cases h with ⟨-, hc0, rfl⟩ | ⟨i, -, hp, hlt, rfl⟩ | ⟨i, done, -, hp, hdone, rfl⟩ |
    ⟨i, sp, -, hsp, hp, rfl⟩ | ⟨i, sp, -, hsp, hp, rfl⟩ | ⟨i, e, first, -, hp, hfirst, rfl⟩ |
    ⟨i, e, -, hp, hnone, rfl⟩ | ⟨i, -, hp, rfl⟩
  · -- expire
    have herr : s.err = none := by
      cases he : s.err with
      | none => rfl
      | some e =>
        have := herrctx (by rw [he]; rfl)
        rw [hc0] at this
        exact absurd this (by simp)
    refine ⟨hls, hlp, hsem, hle, Or.inr (Or.inl rfl), fun _ => rfl, ?_, ?_⟩
    · intro j space0 space ph h0 hs hph
      exact taskInv_mono (fun h1 => h1) (fun hx => by
        simp only [Enrichment.expired] at hx
        rw [hc0] at hx
        exact absurd hx (by simp)) (htask _ _ _ _ h0 hs hph)
    · intro e1 he1
      simp only at he1
      rw [herr] at he1
      exact absurd he1 (by simp)
  · -- acquire
    have hc := countP_set_getElem? Phase.holdsSlot s.phase i _ Phase.admitted hp
    simp only [Phase.holdsSlot] at hc
    refine ⟨hls, by simpa using hlp, ?_, ?_, hctx, herrctx, ?_, horig⟩
    · simp only [Enrichment.holders]; simp at hc; omega
    · simp only; omega
    · intro j space0 space ph h0 hs hph
      rcases getElem?_set_some hph with ⟨rfl, rfl⟩ | ⟨-, hold⟩
      · exact htask _ _ _ Phase.waiting h0 hs hp
      · exact htask _ _ _ _ h0 hs hold
  · -- abort
    have hc := countP_set_getElem? Phase.holdsSlot s.phase i _ (Phase.returned (some done)) hp
    simp only [Phase.holdsSlot] at hc
    refine ⟨hls, by simpa using hlp, ?_, hle, hctx, herrctx, ?_, horig⟩
    · simp only [Enrichment.holders]; simp at hc; omega
    · intro j space0 space ph h0 hs hph
      rcases getElem?_set_some hph with ⟨rfl, rfl⟩ | ⟨-, hold⟩
      · refine ⟨htask _ _ _ Phase.waiting h0 hs hp, ?_⟩
        intro herr
        rcases hctx with hc1 | hc1 | ⟨-, hc2⟩
        · rw [hc1] at hdone; exact absurd hdone (by simp)
        · rw [hc1] at hdone
          cases Option.some.inj hdone
          exact Or.inr (Or.inr ⟨hc1, rfl⟩)
        · simp only at herr
          rw [herr] at hc2
          exact absurd hc2 (by simp)
      · exact htask _ _ _ _ h0 hs hold
  · -- issue
    have hc := countP_set_getElem? Phase.holdsSlot s.phase i _ Phase.calling hp
    simp only [Phase.holdsSlot] at hc
    refine ⟨hls, by simpa using hlp, ?_, hle, hctx, herrctx, ?_, horig⟩
    · simp only [Enrichment.holders]; simp at hc; omega
    · intro j space0 space ph h0 hs hph
      rcases getElem?_set_some hph with ⟨rfl, rfl⟩ | ⟨-, hold⟩
      · exact htask _ _ _ Phase.admitted h0 hs hp
      · exact htask _ _ _ _ h0 hs hold
  · -- complete
    have hc := countP_set_getElem? Phase.holdsSlot s.phase i _
      (Phase.returned (afterCall json s.spaces i (detailCall client s.ctx sp.ID)).2) hp
    simp only [Phase.holdsSlot] at hc
    refine ⟨by simpa [afterCall_length] using hls, by simpa using hlp, ?_, ?_, hctx, herrctx,
      ?_, horig⟩
    · simp only [Enrichment.holders]; simp at hc; omega
    · simp only; omega
    · intro j space0 space ph h0 hs hph
      simp only at hs hph
      rcases getElem?_set_some hph with ⟨rfl, rfl⟩ | ⟨hne, hold⟩
      · have hsp0 : sp = space0 := htask _ _ _ Phase.calling h0 hsp hp
        subst hsp0
        unfold afterCall at hs ⊢
        cases hcall : (detailCall client s.ctx sp.ID).2 with
        | some e =>
          have hf : fetchState json (detailCall client s.ctx sp.ID) = .error e := by
            simp [fetchState, hcall]
          rw [hf] at hs
          simp only at hs ⊢
          rw [hf]
          rw [hsp] at hs
          refine ⟨(Option.some.inj hs).symm, ?_⟩
          intro herr
          refine Or.inl ⟨s.ctx, ?_, hcall⟩
          rcases hctx with hc1 | hc1 | ⟨-, hc2⟩
          · exact Or.inl (by simp [Enrichment.ctx, hc1])
          · exact Or.inr ⟨hc1, by simp [Enrichment.ctx, hc1]⟩
          · rw [herr] at hc2
            exact absurd hc2 (by simp)
        | none =>
          have hlive := detailCall_ok_live client s.ctx sp.ID hcall
          rw [hlive] at hs ⊢
          rw [hlive] at hcall
          cases hu : json.UnmarshalState (detailCall client { Err := none } sp.ID).1 with
          | error e =>
            have hf : fetchState json (detailCall client { Err := none } sp.ID) = .error e := by
              simp [fetchState, hcall, hu]
            rw [hf] at hs
            simp only at hs ⊢
            rw [hf]
            rw [hsp] at hs
            exact ⟨(Option.some.inj hs).symm, fun _ => Or.inr (Or.inl ⟨hcall, hu⟩)⟩
          | ok state =>
            have hf : fetchState json (detailCall client { Err := none } sp.ID) = .ok state := by
              simp [fetchState, hcall, hu]
            rw [hf] at hs
            simp only at hs ⊢
            rw [hf]
            rw [merge_getElem?_self _ _ _ _ _ hsp] at hs
            exact ⟨state, hf, (Option.some.inj hs).symm⟩
      · rw [afterCall_getElem?_ne _ _ _ _ _ hne] at hs
        exact htask _ _ _ _ h0 hs hold
  · -- record, an error that is not the first
    have hc := countP_set_getElem? Phase.holdsSlot s.phase i _ Phase.failed hp
    simp only [Phase.holdsSlot] at hc
    refine ⟨hls, by simpa using hlp, ?_, hle, hctx, herrctx, ?_, horig⟩
    · simp only [Enrichment.holders]; simp at hc; omega
    · intro j space0 space ph h0 hs hph
      simp only at hs hph
      rcases getElem?_set_some hph with ⟨rfl, rfl⟩ | ⟨-, hold⟩
      · exact ⟨(htask _ _ _ (Phase.returned (some e)) h0 hs hp).1, by rw [hfirst]; rfl⟩
      · exact htask _ _ _ _ h0 hs hold
  · -- record, the first error
    have hc := countP_set_getElem? Phase.holdsSlot s.phase i _ Phase.failed hp
    simp only [Phase.holdsSlot] at hc
    have hexp : s.expired →
        (match s.ctxErr with | some done => some done | none => some GoError.canceled) =
          some GoError.deadlineExceeded := by
      intro hx
      simp only [Enrichment.expired] at hx
      rw [hx]
    have hexp1 : (match s.ctxErr with | some done => some done | none => some GoError.canceled) =
          some GoError.deadlineExceeded → s.expired := by
      intro hx
      simp only [Enrichment.expired]
      cases hc1 : s.ctxErr with
      | none => rw [hc1] at hx; exact absurd hx (by simp)
      | some done => rw [hc1] at hx; exact hx
    refine ⟨hls, by simpa using hlp, ?_, hle, ?_, ?_, ?_, ?_⟩
    · simp only [Enrichment.holders]; simp at hc; omega
    · simp only
      rcases hctx with hc1 | hc1 | ⟨hc1, -⟩
      · rw [hc1]; exact Or.inr (Or.inr ⟨rfl, rfl⟩)
      · rw [hc1]; exact Or.inr (Or.inl rfl)
      · rw [hc1]; exact Or.inr (Or.inr ⟨rfl, rfl⟩)
    · intro _
      simp only
      cases s.ctxErr <;> rfl
    · intro j space0 space ph h0 hs hph
      simp only at hs hph
      rcases getElem?_set_some hph with ⟨rfl, rfl⟩ | ⟨-, hold⟩
      · exact ⟨(htask _ _ _ (Phase.returned (some e)) h0 hs hp).1, rfl⟩
      · exact taskInv_mono (fun h1 => absurd h1 (by simp)) hexp (htask _ _ _ _ h0 hs hold)
    · intro e1 he1
      simp only at he1
      cases Option.some.inj he1
      have hi : i < spaces0.length := hlp ▸ (List.getElem?_eq_some.mp hp).1
      have hi2 : i < s.spaces.length := hls ▸ hi
      have ht := htask i _ _ (Phase.returned (some e)) (List.getElem?_eq_getElem hi)
        (List.getElem?_eq_getElem hi2) hp
      exact ⟨i, _, List.getElem?_eq_getElem hi, source_mono hexp (ht.2 hnone)⟩
  · -- record, no error
    have hc := countP_set_getElem? Phase.holdsSlot s.phase i _ Phase.finished hp
    simp only [Phase.holdsSlot] at hc
    refine ⟨hls, by simpa using hlp, ?_, hle, hctx, herrctx, ?_, horig⟩
    · simp only [Enrichment.holders]; simp at hc; omega
    · intro j space0 space ph h0 hs hph
      rcases getElem?_set_some hph with ⟨rfl, rfl⟩ | ⟨-, hold⟩
      · exact htask _ _ _ (Phase.returned none) h0 hs hp
      · exact htask _ _ _ _ h0 hs hold

theorem inv_run {json : JSON} {client : SynapseClientInterface} {spaces0 : List Space}
    {sched : List Action} {s : Enrichment}
    (h : run json client (spawn spaces0) sched = some s) : Inv json client spaces0 s :=
  run_invariant (Inv json client spaces0) (fun _ _ _ hP hs => inv_step hP hs) sched _ _
    (inv_spawn json client spaces0) h

/-! ## Complete executions exist -/

theorem run_taskActions (json : JSON) (client : SynapseClientInterface) (s : Enrichment)
    (k : Nat) (space : Space) (hp : s.phase[k]? = some Phase.waiting)
    (hsp : s.spaces[k]? = some space) (hsem : s.sem < maxConcurrentRequests) :
    ∃ s1 ph, run json client s (taskActions k) = some s1 ∧ s1.phase = s.phase.set k ph ∧
      ph.isDone = true ∧ s1.sem = s.sem ∧ s1.spaces.length = s.spaces.length := by
  have hlt : k < s.phase.length := (List.getElem?_eq_some.mp hp).1
  have hctx : ∀ (sp : List Space) (ph : List Phase) (n : Nat) (err : Option GoError)
      (calls : List String),
      Enrichment.ctx { spaces := sp, phase := ph, sem := n, err := err, ctxErr := s.ctxErr,
                       calls := calls } = s.ctx :=
    fun _ _ _ _ _ => rfl
  cases hr : (afterCall json s.spaces k (detailCall client s.ctx space.ID)).2 with
  | none =>
    refine ⟨{ s with spaces := (afterCall json s.spaces k (detailCall client s.ctx space.ID)).1,
                     phase := s.phase.set k Phase.finished,
                     calls := s.calls ++ [statePath space.ID] }, Phase.finished, ?_, rfl, rfl, rfl,
      afterCall_length _ _ _ _⟩
    simp [taskActions, run, step, hp, hsp, hsem, hlt, hctx, hr]
  | some e =>
    cases herr : s.err with
    | some first =>
      refine ⟨{ s with spaces := (afterCall json s.spaces k (detailCall client s.ctx space.ID)).1,
                       phase := s.phase.set k Phase.failed,
                       calls := s.calls ++ [statePath space.ID] }, Phase.failed, ?_, rfl, rfl,
        rfl, afterCall_length _ _ _ _⟩
      simp [taskActions, run, step, hp, hsp, hsem, hlt, hctx, hr, herr]
    | none =>
      refine ⟨{ s with spaces := (afterCall json s.spaces k (detailCall client s.ctx space.ID)).1,
                       phase := s.phase.set k Phase.failed,
                       err := some e,
                       ctxErr := match s.ctxErr with
                         | some done => some done
                         | none => some GoError.canceled,
                       calls := s.calls ++ [statePath space.ID] }, Phase.failed, ?_, rfl, rfl,
        rfl, afterCall_length _ _ _ _⟩
      simp [taskActions, run, step, hp, hsp, hsem, hlt, hctx, hr, herr]

theorem run_sequential (json : JSON) (client : SynapseClientInterface) (spaces0 : List Space)
    (k : Nat) (hk : k ≤ spaces0.length) :
    ∃ s, run json client (spawn spaces0) (sequential k) = some s ∧ s.sem = 0 ∧
      s.spaces.length = spaces0.length ∧ s.phase.length = spaces0.length ∧
      (∀ (i : Nat) (ph : Phase), i < k → s.phase[i]? = some ph → ph.isDone = true) ∧
      (∀ (i : Nat), k ≤ i → i < spaces0.length → s.phase[i]? = some Phase.waiting) := by
  induction k with
  | zero =>
    refine ⟨spawn spaces0, rfl, rfl, rfl, by simp [spawn], ?_, ?_⟩
    · intro i ph hi
      exact absurd hi (Nat.not_lt_zero i)
    · intro i _ hi
      simp only [spawn]
      rw [List.getElem?_map, List.getElem?_eq_getElem hi]
      rfl
  | succ k ih =>
    obtain ⟨s, hrun, hsem, hls, hlp, hdone, hwait⟩ := ih (Nat.le_of_succ_le hk)
    have hk1 : k < spaces0.length := hk
    have hsp : s.spaces[k]? = some (s.spaces.get ⟨k, hls ▸ hk1⟩) :=
      List.getElem?_eq_getElem (hls ▸ hk1)
    obtain ⟨s1, ph, hrun1, hph, hphd, hsem1, hls1⟩ :=
      run_taskActions json client s k _ (hwait k (Nat.le_refl k) hk1) hsp
        (by rw [hsem]; decide)
    refine ⟨s1, ?_, by rw [hsem1, hsem], by rw [hls1, hls], by rw [hph]; simpa using hlp, ?_, ?_⟩
    · simp only [sequential]
      rw [run_append, hrun]
      exact hrun1
    · intro i ph1 hi hget
      rw [hph] at hget
      rcases getElem?_set_some hget with ⟨-, rfl⟩ | ⟨hne, hold⟩
      · exact hphd
      · exact hdone i ph1 (by omega) hold
    · intro i hki hi
      rw [hph, List.getElem?_set_ne (by omega)]
      exact hwait i (by omega) hi

theorem run_complete (json : JSON) (client : SynapseClientInterface) (spaces0 : List Space) :
    ∃ s, run json client (spawn spaces0) (sequential spaces0.length) = some s ∧
      s.allDone = true := by
  obtain ⟨s, hrun, -, -, hlp, hdone, -⟩ :=
    run_sequential json client spaces0 spaces0.length (Nat.le_refl _)
  refine ⟨s, hrun, ?_⟩
  simp only [Enrichment.allDone, List.all_eq_true]
  intro ph hmem
  obtain ⟨i, hi⟩ := List.mem_iff_getElem?.mp hmem
  have hlt : i < s.phase.length := (List.getElem?_eq_some.mp hi).1
  exact hdone i ph (hlp ▸ hlt) hi

theorem wait_isSome (s : Enrichment) (h : s.allDone = true) : ∃ out, wait s = some out := by
  unfold wait
  rw [if_pos h]
  cases s.err with
  | none => exact ⟨_, rfl⟩
  | some e => exact ⟨_, rfl⟩

/-- For every decoder and every transport `GetSpaces` returns under some
schedule: the enrichment phase cannot get stuck. -/
theorem GetSpaces_returns (json : JSON) (client : SynapseClientInterface) :
    ∃ sched out, GetSpaces json client sched = some out := by
  cases h1 : (listingCall client).2 with
  | some e => exact ⟨[], { spaces := [], err := some e, detailCalls := [] },
      by simp only [GetSpaces, h1]⟩
  | none =>
    cases h2 : (parseSpaces json (listingCall client).1).2 with
    | some e =>
      exact ⟨[], { spaces := (parseSpaces json (listingCall client).1).1, err := some e,
                   detailCalls := [] }, by simp only [GetSpaces, h1, h2]⟩
    | none =>
      obtain ⟨s, hrun, hdone⟩ := run_complete json client (parseSpaces json (listingCall client).1).1
      obtain ⟨out, hout⟩ := wait_isSome s hdone
      refine ⟨sequential (parseSpaces json (listingCall client).1).1.length, out, ?_⟩
      simp only [GetSpaces, h1, h2, hrun]
      exact hout

/-! ## What a returned value tells -/

theorem parseSpaces_ok (json : JSON) (data : Bytes) (chunk : List PublicRoomInfo)
    (h : json.UnmarshalPublicRooms data = .ok chunk) :
    parseSpaces json data = (chunk.map newSpace, none) := by
  simp [parseSpaces, h, parseSpaces.loop_eq_map]

theorem parseSpaces_error (json : JSON) (data : Bytes) (e : GoError)
    (h : json.UnmarshalPublicRooms data = .error e) :
    parseSpaces json data = ([], some e) := by
  simp [parseSpaces, h]

/-- The three ways in which `GetSpaces` returns. -/
theorem GetSpaces_cases {json : JSON} {client : SynapseClientInterface} {sched : List Action}
    {out : Outcome} (h : GetSpaces json client sched = some out) :
    (∃ e, (listingCall client).2 = some e ∧
        out = { spaces := [], err := some e, detailCalls := [] }) ∨
    (∃ e, (listingCall client).2 = none ∧
        json.UnmarshalPublicRooms (listingCall client).1 = .error e ∧
        out = { spaces := [], err := some e, detailCalls := [] }) ∨
    (∃ chunk s, (listingCall client).2 = none ∧
        json.UnmarshalPublicRooms (listingCall client).1 = .ok chunk ∧
        run json client (spawn (chunk.map newSpace)) sched = some s ∧ s.allDone = true ∧
        wait s = some out) := by
  cases h1 : (listingCall client).2 with
  | some e =>
    simp only [GetSpaces, h1] at h
    exact Or.inl ⟨e, rfl, (Option.some.inj h).symm⟩
  | none =>
    cases h2 : json.UnmarshalPublicRooms (listingCall client).1 with
    | error e =>
      simp only [GetSpaces, h1, parseSpaces_error json _ e h2] at h
      exact Or.inr (Or.inl ⟨e, rfl, rfl, (Option.some.inj h).symm⟩)
    | ok chunk =>
      simp only [GetSpaces, h1, parseSpaces_ok json _ chunk h2] at h
      cases h3 : run json client (spawn (chunk.map newSpace)) sched with
      | none => rw [h3] at h; exact absurd h (by simp)
      | some s =>
        rw [h3] at h
        simp only at h
        refine Or.inr (Or.inr ⟨chunk, s, rfl, rfl, h3, ?_, h⟩)
        unfold wait at h
        by_cases hd : s.allDone = true
        · exact hd
        · rw [if_neg hd] at h; exact absurd h (by simp)

/-! ## No run gets stuck, and no run goes on for ever -/

theorem rankSum_le (l : List Phase) : rankSum l ≤ 4 * l.length := by
  induction l with
  | nil => simp [rankSum]
  | cons ph rest ih =>
    have h : ph.rank ≤ 4 := by cases ph <;> simp [Phase.rank]
    simp only [rankSum, List.length_cons]
    omega

theorem rankSum_set (l : List Phase) (i : Nat) (a b : Phase) (h : l[i]? = some a) :
    rankSum (l.set i b) + a.rank = rankSum l + b.rank := by
  induction l generalizing i with
  | nil => simp at h
  | cons ph rest ih =>
    cases i with
    | zero =>
      simp only [List.getElem?_cons_zero, Option.some.injEq] at h
      subst h
      simp only [List.set_cons_zero, rankSum]
      omega
    | succ j =>
      simp only [List.getElem?_cons_succ] at h
      have := ih j h
      simp only [List.set_cons_succ, rankSum]
      omega

/-- The measure that every step increases: the ranks of the tasks, and one
more once the context is done. -/
theorem step_rank {json : JSON} {client : SynapseClientInterface} {s s1 : Enrichment}
    {a : Action} (h : step json client s a = some s1) :
    rankSum s.phase + (if s.ctxErr.isSome = true then 1 else 0) + 1 ≤
      rankSum s1.phase + (if s1.ctxErr.isSome = true then 1 else 0) := by
  have hctx : (if s.ctxErr.isSome = true then 1 else 0) ≤
      (if (match s.ctxErr with
            | some done => some done
            | none => some GoError.canceled).isSome = true then 1 else 0) := by
    cases s.ctxErr <;> simp
  rcases step_cases h with ⟨-, hc0, rfl⟩ | ⟨i, -, hp, -, rfl⟩ | ⟨i, done, -, hp, -, rfl⟩ |
    ⟨i, sp, -, -, hp, rfl⟩ | ⟨i, sp, -, -, hp, rfl⟩ | ⟨i, e, first, -, hp, -, rfl⟩ |
    ⟨i, e, -, hp, -, rfl⟩ | ⟨i, -, hp, rfl⟩
  · simp [hc0]
  · have := rankSum_set s.phase i _ Phase.admitted hp
    simp only [Phase.rank] at this ⊢
    omega
  · have := rankSum_set s.phase i _ (Phase.returned (some done)) hp
    simp only [Phase.rank] at this ⊢
    omega
  · have := rankSum_set s.phase i _ Phase.calling hp
    simp only [Phase.rank] at this ⊢
    omega
  · have := rankSum_set s.phase i _
      (Phase.returned (afterCall json s.spaces i (detailCall client s.ctx sp.ID)).2) hp
    simp only [Phase.rank] at this ⊢
    omega
  · have := rankSum_set s.phase i _ Phase.failed hp
    simp only [Phase.rank] at this ⊢
    omega
  · have := rankSum_set s.phase i _ Phase.failed hp
    simp only [Phase.rank] at this ⊢
    omega
  · have := rankSum_set s.phase i _ Phase.finished hp
    simp only [Phase.rank] at this ⊢
    omega

theorem run_rank {json : JSON} {client : SynapseClientInterface} (sched : List Action) :
    ∀ (s s1 : Enrichment), run json client s sched = some s1 →
      rankSum s.phase + (if s.ctxErr.isSome = true then 1 else 0) + sched.length ≤
        rankSum s1.phase + (if s1.ctxErr.isSome = true then 1 else 0) := by
  induction sched with
  | nil =>
    intro s s1 h
    simp only [run] at h
    cases Option.some.inj h
    simp
  | cons a rest ih =>
    intro s s1 h
    simp only [run] at h
    cases hs : step json client s a with
    | none => rw [hs] at h; exact absurd h (by simp)
    | some s2 =>
      rw [hs] at h
      have h1 := step_rank hs
      have h2 := ih s2 s1 h
      simp only [List.length_cons]
      omega

/-- A run of the enrichment phase on `n` spaces has at most `4 * n + 1`
actions: four for each task, and the expiry of the deadline. -/
theorem schedule_length_le {json : JSON} {client : SynapseClientInterface}
    {spaces0 : List Space} {sched : List Action} {s : Enrichment}
    (h : run json client (spawn spaces0) sched = some s) :
    sched.length ≤ 4 * spaces0.length + 1 := by
  have h1 := run_rank sched _ _ h
  have h2 := rankSum_le s.phase
  rw [(inv_run h).len_phase] at h2
  have h3 : (if s.ctxErr.isSome = true then 1 else 0) ≤ 1 := by split <;> omega
  omega

/-- In a reachable state that is not final some action is enabled: the
enrichment phase has no deadlock. -/
theorem enrichment_progress {json : JSON} {client : SynapseClientInterface}
    {spaces0 : List Space} {sched : List Action} {s : Enrichment}
    (h : run json client (spawn spaces0) sched = some s) (hnot : s.allDone = false) :
    ∃ a, (step json client s a).isSome = true := by
  have hinv := inv_run h
  have hex : ∃ ph ∈ s.phase, Phase.isDone ph = false := by
    by_contra hcon
    have hall : s.allDone = true := by
      simp only [Enrichment.allDone, List.all_eq_true]
      intro ph hmem
      by_contra hph
      exact hcon ⟨ph, hmem, by simpa using hph⟩
    rw [hall] at hnot
    exact absurd hnot (by simp)
  -- a task past admission can always move
  have hmove : ∀ (i : Nat) (ph : Phase), s.phase[i]? = some ph →
      (ph = Phase.admitted ∨ ph = Phase.calling ∨ ∃ r, ph = Phase.returned r) →
      ∃ a, (step json client s a).isSome = true := by
    intro i ph hi hph
    have hlt : i < s.spaces.length := by
      rw [hinv.len_spaces, ← hinv.len_phase]
      exact (List.getElem?_eq_some.mp hi).1
    have hsp := List.getElem?_eq_getElem hlt
    rcases hph with rfl | rfl | ⟨r, rfl⟩
    · exact ⟨Action.issue i, by simp [step, hsp, hi]⟩
    · exact ⟨Action.complete i, by simp [step, hsp, hi]⟩
    · cases r with
      | none => exact ⟨Action.record i, by simp [step, hi]⟩
      | some e =>
        cases he : s.err with
        | none => exact ⟨Action.record i, by simp [step, hi, he]⟩
        | some first => exact ⟨Action.record i, by simp [step, hi, he]⟩
  obtain ⟨ph, hmem, hnd⟩ := hex
  obtain ⟨i, hi⟩ := List.mem_iff_getElem?.mp hmem
  cases ph with
  | admitted => exact hmove i _ hi (Or.inl rfl)
  | calling => exact hmove i _ hi (Or.inr (Or.inl rfl))
  | returned r => exact hmove i _ hi (Or.inr (Or.inr ⟨r, rfl⟩))
  | finished => exact absurd hnd (by simp [Phase.isDone])
  | failed => exact absurd hnd (by simp [Phase.isDone])
  | waiting =>
    by_cases hsem : s.sem < maxConcurrentRequests
    · exact ⟨Action.acquire i, by simp [step, hi, hsem]⟩
    · have hpos : 0 < List.countP Phase.holdsSlot s.phase := by
        have h1 := hinv.sem_eq
        simp only [Enrichment.holders] at h1
        have h2 : maxConcurrentRequests = 10 := rfl
        omega
      obtain ⟨ph1, hmem1, hslot⟩ := List.countP_pos_iff.mp hpos
      obtain ⟨j, hj⟩ := List.mem_iff_getElem?.mp hmem1
      cases ph1 with
      | admitted => exact hmove j _ hj (Or.inl rfl)
      | calling => exact hmove j _ hj (Or.inr (Or.inl rfl))
      | waiting => exact absurd hslot (by simp [Phase.holdsSlot])
      | returned r => exact absurd hslot (by simp [Phase.holdsSlot])
      | finished => exact absurd hslot (by simp [Phase.holdsSlot])
      | failed => exact absurd hslot (by simp [Phase.holdsSlot])

theorem taskInv_fields {json : JSON} {client : SynapseClientInterface} {err : Option GoError}
    {expired : Prop} {space0 space : Space} {ph : Phase}
    (h : TaskInv json client err expired space0 space ph) :
    space.ID = space0.ID ∧ space.Name = space0.Name ∧ space.Members = space0.Members := by
  cases ph with
  | waiting => cases h; exact ⟨rfl, rfl, rfl⟩
  | admitted => cases h; exact ⟨rfl, rfl, rfl⟩
  | calling => cases h; exact ⟨rfl, rfl, rfl⟩
  | finished =>
    obtain ⟨_, _, rfl⟩ := h
    exact ⟨rfl, rfl, rfl⟩
  | failed => cases h.1; exact ⟨rfl, rfl, rfl⟩
  | returned r =>
    cases r with
    | none =>
      obtain ⟨_, _, rfl⟩ := h
      exact ⟨rfl, rfl, rfl⟩
    | some e => cases h.1; exact ⟨rfl, rfl, rfl⟩

/-- In a final state without a recorded error every space is the listing
entry enriched with the children of its own detail response. -/
theorem final_enriched {json : JSON} {client : SynapseClientInterface} {spaces0 : List Space}
    {s : Enrichment} (hinv : Inv json client spaces0 s) (hdone : s.allDone = true)
    (herr : s.err = none) (i : Nat) (space0 : Space) (h0 : spaces0[i]? = some space0) :
    ∃ state, fetchState json (detailCall client { Err := none } space0.ID) = .ok state ∧
      s.spaces[i]? = some (enrich space0 state) := by
  have hi : i < spaces0.length := (List.getElem?_eq_some.mp h0).1
  have hip : i < s.phase.length := hinv.len_phase ▸ hi
  have his : i < s.spaces.length := hinv.len_spaces ▸ hi
  have hph := List.getElem?_eq_getElem hip
  have hsp := List.getElem?_eq_getElem his
  have ht := hinv.task i space0 _ _ h0 hsp hph
  have hd : (s.phase[i]).isDone = true := by
    simp only [Enrichment.allDone, List.all_eq_true] at hdone
    exact hdone _ (List.getElem_mem hip)
  revert ht hd hph
  generalize s.phase[i] = ph
  intro hph ht hd
  cases ph with
  | finished =>
    obtain ⟨state, hf, hs⟩ := ht
    exact ⟨state, hf, by rw [hsp, hs]⟩
  | failed => rw [herr] at ht; exact absurd ht.2 (by simp)
  | waiting => exact absurd hd (by simp [Phase.isDone])
  | admitted => exact absurd hd (by simp [Phase.isDone])
  | calling => exact absurd hd (by simp [Phase.isDone])
  | returned r => exact absurd hd (by simp [Phase.isDone])

/-- Without the expiry of the deadline the source of an error is the detail
call under a live context or the decoding of its payload. -/
theorem source_live {json : JSON} {client : SynapseClientInterface} {expired : Prop}
    {space0 : Space} {e : GoError} (hnot : ¬ expired)
    (h : Source json client expired space0 e) :
    (detailCall client { Err := none } space0.ID).2 = some e ∨
    ((detailCall client { Err := none } space0.ID).2 = none ∧
      json.UnmarshalState (detailCall client { Err := none } space0.ID).1 = .error e) := by
  rcases h with ⟨ctx, hctx, hcall⟩ | hdec | ⟨hx, -⟩
  · rcases hctx with rfl | ⟨hx, -⟩
    · exact Or.inl hcall
    · exact absurd hx hnot
  · exact Or.inr hdec
  · exact absurd hx hnot

theorem step_not_expired {json : JSON} {client : SynapseClientInterface} {s s1 : Enrichment}
    {a : Action} (ha : a ≠ Action.expire) (h : step json client s a = some s1)
    (hnot : ¬ s.expired) : ¬ s1.expired := by
  simp only [Enrichment.expired] at hnot ⊢
  rcases step_cases h with ⟨hexp, -, -⟩ | ⟨i, -, -, -, rfl⟩ | ⟨i, done, -, -, -, rfl⟩ |
    ⟨i, sp, -, -, -, rfl⟩ | ⟨i, sp, -, -, -, rfl⟩ | ⟨i, e, first, -, -, -, rfl⟩ |
    ⟨i, e, -, -, -, rfl⟩ | ⟨i, -, -, rfl⟩
  · exact absurd hexp ha
  · exact hnot
  · exact hnot
  · exact hnot
  · exact hnot
  · exact hnot
  · simp only
    cases hc : s.ctxErr with
    | none => simp
    | some done => rw [hc] at hnot; exact hnot
  · exact hnot

/-- The deadline has not expired in a state reached by a schedule without
the action `expire`. -/
theorem run_not_expired {json : JSON} {client : SynapseClientInterface} (sched : List Action) :
    ∀ (s s1 : Enrichment), Action.expire ∉ sched → run json client s sched = some s1 →
      ¬ s.expired → ¬ s1.expired := by
  induction sched with
  | nil =>
    intro s s1 _ h hnot
    simp only [run] at h
    cases Option.some.inj h
    exact hnot
  | cons a rest ih =>
    intro s s1 hmem h hnot
    simp only [run] at h
    cases hs : step json client s a with
    | none => rw [hs] at h; exact absurd h (by simp)
    | some s2 =>
      rw [hs] at h
      have ha : a ≠ Action.expire := fun e => hmem (by rw [e]; exact List.mem_cons_self _ _)
      exact ih s2 s1 (fun hm => hmem (List.mem_cons_of_mem _ hm)) h (step_not_expired ha hs hnot)

theorem expire_not_mem_sequential (n : Nat) : Action.expire ∉ sequential n := by
  induction n with
  | zero => simp [sequential]
  | succ n ih => simp [sequential, taskActions, ih]

/-- What a return without error tells. -/
theorem GetSpaces_ok {json : JSON} {client : SynapseClientInterface} {sched : List Action}
    {out : Outcome} (h : GetSpaces json client sched = some out) (herr : out.err = none) :
    ∃ chunk, (listingCall client).2 = none ∧
      json.UnmarshalPublicRooms (listingCall client).1 = .ok chunk ∧
      out.spaces.length = chunk.length ∧
      ∀ (i : Nat) (room : PublicRoomInfo), chunk[i]? = some room →
        ∃ state, fetchState json (detailCall client { Err := none } room.RoomID) = .ok state ∧
          out.spaces[i]? = some (enrich (newSpace room) state) := by
  rcases GetSpaces_cases h with ⟨e, -, rfl⟩ | ⟨e, -, -, rfl⟩ | ⟨chunk, s, h1, h2, hrun, hdone, hw⟩
  · exact absurd herr (by simp)
  · exact absurd herr (by simp)
  · have hinv := inv_run hrun
    unfold wait at hw
    rw [if_pos hdone] at hw
    cases hse : s.err with
    | some e =>
      rw [hse] at hw
      cases Option.some.inj hw
      exact absurd herr (by simp)
    | none =>
      rw [hse] at hw
      cases Option.some.inj hw
      refine ⟨chunk, h1, h2, by simpa using hinv.len_spaces, ?_⟩
      intro i room hroom
      have h0 : (chunk.map newSpace)[i]? = some (newSpace room) := by
        rw [List.getElem?_map, hroom]; rfl
      exact final_enriched hinv hdone hse i (newSpace room) h0

/-- What a return with an error tells. -/
theorem GetSpaces_err {json : JSON} {client : SynapseClientInterface} {sched : List Action}
    {out : Outcome} {e : GoError} (h : GetSpaces json client sched = some out)
    (herr : out.err = some e) :
    out.spaces = [] ∧
    ((listingCall client).2 = some e ∨
     ((listingCall client).2 = none ∧
        json.UnmarshalPublicRooms (listingCall client).1 = .error e) ∨
     (∃ chunk, (listingCall client).2 = none ∧
        json.UnmarshalPublicRooms (listingCall client).1 = .ok chunk ∧
        ∃ room ∈ chunk, Source json client (Action.expire ∈ sched) (newSpace room) e)) := by
  rcases GetSpaces_cases h with ⟨e1, h1, rfl⟩ | ⟨e1, h1, h2, rfl⟩ |
    ⟨chunk, s, h1, h2, hrun, hdone, hw⟩
  · cases Option.some.inj herr
    exact ⟨rfl, Or.inl h1⟩
  · cases Option.some.inj herr
    exact ⟨rfl, Or.inr (Or.inl ⟨h1, h2⟩)⟩
  · have hinv := inv_run hrun
    unfold wait at hw
    rw [if_pos hdone] at hw
    cases hse : s.err with
    | none =>
      rw [hse] at hw
      cases Option.some.inj hw
      exact absurd herr (by simp)
    | some e1 =>
      rw [hse] at hw
      cases Option.some.inj hw
      cases Option.some.inj herr
      refine ⟨rfl, Or.inr (Or.inr ⟨chunk, h1, h2, ?_⟩)⟩
      obtain ⟨i, space0, h0, hf⟩ := hinv.origin _ hse
      have hexp : s.expired → Action.expire ∈ sched := by
        intro hx
        by_contra hmem
        exact run_not_expired sched _ _ hmem hrun (by simp [Enrichment.expired, spawn]) hx
      rw [List.getElem?_map] at h0
      cases hc : chunk[i]? with
      | none => rw [hc] at h0; exact absurd h0 (by simp)
      | some room =>
        rw [hc] at h0
        cases Option.some.inj h0
        exact ⟨room, List.mem_iff_getElem?.mpr ⟨i, hc⟩, source_mono hexp hf⟩

theorem fetchState_ok_iff (json : JSON) (resp : Bytes × Option GoError) (state : List Event) :
    fetchState json resp = .ok state ↔ resp.2 = none ∧ json.UnmarshalState resp.1 = .ok state := by
  unfold fetchState
  cases h : resp.2 with
  | none => simp
  | some e => simp

theorem fetchState_error_iff (json : JSON) (resp : Bytes × Option GoError) (e : GoError) :
    fetchState json resp = .error e ↔
      resp.2 = some e ∨ (resp.2 = none ∧ json.UnmarshalState resp.1 = .error e) := by
  unfold fetchState
  cases h : resp.2 with
  | none => simp
  | some e1 => simp

/-- On no space at all a run does nothing but, possibly, let the deadline
expire. -/
theorem run_spawn_nil {json : JSON} {client : SynapseClientInterface} {sched : List Action}
    {s : Enrichment} (h : run json client (spawn []) sched = some s) :
    s.spaces = [] ∧ s.phase = [] ∧ s.err = none ∧ s.calls = [] := by
  refine run_invariant
    (fun t => t.spaces = [] ∧ t.phase = [] ∧ t.err = none ∧ t.calls = []) ?_ sched _ _
    ⟨rfl, rfl, rfl, rfl⟩ h
  intro t a t1 ⟨h1, h2, h3, h4⟩ hstep
  rcases step_cases hstep with ⟨-, -, rfl⟩ | ⟨i, -, hp, -, -⟩ | ⟨i, done, -, hp, -, -⟩ |
    ⟨i, sp, -, -, hp, -⟩ | ⟨i, sp, -, -, hp, -⟩ | ⟨i, e, first, -, hp, -, -⟩ |
    ⟨i, e, -, hp, -, -⟩ | ⟨i, -, hp, -⟩
  · exact ⟨h1, h2, h3, h4⟩
  all_goals (rw [h2] at hp; exact absurd hp (by simp))

/-! ## The claims -/

/-- C1, as stated, fails: with the test double of the case "single space,
two children", whose listing call and detail call succeed whatever the
context, the deadline of the context may expire before the task is admitted;
the `select` then takes `<-ctx.Done()`, and `GetSpaces` returns
`context.DeadlineExceeded` and the nil slice. -/
theorem C1_deadline_aborts_enrichment :
    (listingCall twoChildrenMock.client).2 = none ∧
    fixtureJSON.UnmarshalPublicRooms (listingCall twoChildrenMock.client).1 =
      .ok [{ RoomID := "!room1:xentonix.net", Name := "Ubuntu Community",
             NumJoinedMembers := 1500 }] ∧
    (∀ ctx : Context,
      (detailCall twoChildrenMock.client ctx "!room1:xentonix.net").2 = none ∧
      fixtureJSON.UnmarshalState
        (detailCall twoChildrenMock.client ctx "!room1:xentonix.net").1 =
        .ok [{ TypeString := "m.space.child", StateKey := some "!child1:matrix.org" },
             { TypeString := "m.space.child", StateKey := some "!child2:matrix.org" }]) ∧
    GetSpaces fixtureJSON twoChildrenMock.client
        [Action.expire, Action.abort 0, Action.record 0] =
      some { spaces := [], err := some GoError.deadlineExceeded, detailCalls := [] } :=
  ⟨rfl, rfl, fun _ => ⟨rfl, rfl⟩, by decide⟩

/-- C1, amended: when the listing call succeeds and decodes to the chunk
entries `chunk` (any number of them, so also one or more), and the detail
call of every entry succeeds and decodes, then `GetSpaces` returns under some
schedule in which the deadline does not expire, and under every schedule in
which the deadline does not expire it returns no error and exactly one
`Space` per chunk entry, the `i`-th one carrying the `room_id`, `name` and
`num_joined_members` of the `i`-th entry. -/
theorem C1_enrichment_keeps_listing (json : JSON) (client : SynapseClientInterface)
    (chunk : List PublicRoomInfo)
    (hlisting : (listingCall client).2 = none)
    (hchunk : json.UnmarshalPublicRooms (listingCall client).1 = .ok chunk)
    (hdetail : ∀ room ∈ chunk, ∃ state,
      (detailCall client { Err := none } room.RoomID).2 = none ∧
      json.UnmarshalState (detailCall client { Err := none } room.RoomID).1 = .ok state) :
    (∃ sched out, Action.expire ∉ sched ∧ GetSpaces json client sched = some out) ∧
    ∀ sched out, Action.expire ∉ sched → GetSpaces json client sched = some out →
      out.err = none ∧ out.spaces.length = chunk.length ∧
      ∀ (i : Nat) (room : PublicRoomInfo), chunk[i]? = some room →
        ∃ space, out.spaces[i]? = some space ∧ space.ID = room.RoomID ∧
          space.Name = room.Name ∧ space.Members = room.NumJoinedMembers := by
  refine ⟨?_, ?_⟩
  · obtain ⟨s, hrun, hdone⟩ := run_complete json client (chunk.map newSpace)
    obtain ⟨out, hout⟩ := wait_isSome s hdone
    refine ⟨sequential (chunk.map newSpace).length, out, expire_not_mem_sequential _, ?_⟩
    simp only [GetSpaces, hlisting, parseSpaces_ok json _ chunk hchunk, hrun]
    exact hout
  intro sched out hlive h
  cases herr : out.err with
  | some e =>
    exfalso
    rcases (GetSpaces_err h herr).2 with h1 | ⟨-, h2⟩ | ⟨chunk1, -, h2, room, hmem, hsrc⟩
    · rw [hlisting] at h1; exact absurd h1 (by simp)
    · rw [hchunk] at h2; exact absurd h2 (by simp)
    · rw [hchunk] at h2
      cases Except.ok.inj h2
      obtain ⟨state, hs1, hs2⟩ := hdetail room hmem
      rcases source_live hlive hsrc with hcall | ⟨-, hdec⟩
      · rw [show (newSpace room).ID = room.RoomID from rfl, hs1] at hcall
        exact absurd hcall (by simp)
      · rw [show (newSpace room).ID = room.RoomID from rfl, hs2] at hdec
        exact absurd hdec (by simp)
  | none =>
    obtain ⟨chunk1, -, h2, hlen, hall⟩ := GetSpaces_ok h herr
    rw [hchunk] at h2
    cases Except.ok.inj h2
    refine ⟨rfl, hlen, ?_⟩
    intro i room hroom
    obtain ⟨state, -, hsp⟩ := hall i room hroom
    exact ⟨_, hsp, rfl, rfl, rfl⟩

set_option maxRecDepth 8000 in
theorem C1_enrichment_keeps_listing_witness :
    (∃ sched out, Action.expire ∉ sched ∧ GetSpaces pairJSON pairMock.client sched = some out) ∧
    ∀ sched out, Action.expire ∉ sched → GetSpaces pairJSON pairMock.client sched = some out →
      out.err = none ∧ out.spaces.length = 2 ∧
      ∀ (i : Nat) (room : PublicRoomInfo),
        [({ RoomID := "!room1:xentonix.net", Name := "Ubuntu Community",
            NumJoinedMembers := 1500 } : PublicRoomInfo),
         { RoomID := "!room2:matrix.org", Name := "Test", NumJoinedMembers := 1 }][i]? =
          some room →
        ∃ space, out.spaces[i]? = some space ∧ space.ID = room.RoomID ∧
          space.Name = room.Name ∧ space.Members = room.NumJoinedMembers :=
  C1_enrichment_keeps_listing pairJSON pairMock.client
    [{ RoomID := "!room1:xentonix.net", Name := "Ubuntu Community", NumJoinedMembers := 1500 },
     { RoomID := "!room2:matrix.org", Name := "Test", NumJoinedMembers := 1 }]
    rfl rfl
    (by
      intro room hmem
      simp only [List.mem_cons, List.mem_singleton, List.not_mem_nil, or_false] at hmem
      rcases hmem with rfl | rfl
      · exact ⟨_, rfl, rfl⟩
      · exact ⟨_, rfl, rfl⟩)

/-- C2: after a run of `GetSpaces` that returns no error, the detail call for
the path `"/_synapse/admin/v1/rooms/" + ID + "/state"` of every returned
`Space` succeeded and decoded to a state-event collection; `ChildRooms` is the
list of state keys, in payload order, of its `m.space.child` events with a
state key, and `ChildCount` is their number.  A key is in `ChildRooms` exactly
when such an event carries it, so other events contribute nothing. -/
theorem C2_children_of_detail (json : JSON) (client : SynapseClientInterface)
    (sched : List Action) (out : Outcome) (i : Nat) (space : Space)
    (h : GetSpaces json client sched = some out) (herr : out.err = none)
    (hspace : out.spaces[i]? = some space) :
    ∃ state,
      (client.Call { Err := none } ("/_synapse/admin/v1/rooms/" ++ space.ID ++ "/state")
        "GET" none false).2 = none ∧
      json.UnmarshalState
        (client.Call { Err := none } ("/_synapse/admin/v1/rooms/" ++ space.ID ++ "/state")
          "GET" none false).1 = .ok state ∧
      space.ChildRooms = childKeys state ∧
      space.ChildCount = ((childKeys state).length : Int) ∧
      ∀ key, key ∈ space.ChildRooms ↔
        ∃ event ∈ state, event.TypeString = "m.space.child" ∧ event.StateKey = some key := by
  obtain ⟨chunk, -, -, hlen, hall⟩ := GetSpaces_ok h herr
  have hi : i < chunk.length := hlen ▸ (List.getElem?_eq_some.mp hspace).1
  obtain ⟨state, hf, hsp⟩ := hall i _ (List.getElem?_eq_getElem hi)
  rw [hspace] at hsp
  cases Option.some.inj hsp
  obtain ⟨hr, hu⟩ := (fetchState_ok_iff json _ state).mp hf
  refine ⟨state, hr, hu, ?_, ?_, ?_⟩
  · simp [enrich, newSpace, countChildren_eq]
  · simp [enrich, newSpace, countChildren_eq]
  · intro key
    simp only [enrich, newSpace, countChildren_eq, List.nil_append, childKeys,
      List.mem_filterMap]
    constructor
    · rintro ⟨event, hmem, hk⟩
      by_cases ht : event.TypeString = "m.space.child"
      · rw [if_pos ht] at hk
        exact ⟨event, hmem, ht, hk⟩
      · rw [if_neg ht] at hk
        exact absurd hk (by simp)
    · rintro ⟨event, hmem, ht, hk⟩
      exact ⟨event, hmem, by rw [if_pos ht]; exact hk⟩

theorem C2_children_of_detail_witness :
    ∃ state,
      (twoChildrenMock.client.Call { Err := none }
        ("/_synapse/admin/v1/rooms/" ++ "!room1:xentonix.net" ++ "/state") "GET" none false).2
        = none ∧
      fixtureJSON.UnmarshalState
        (twoChildrenMock.client.Call { Err := none }
          ("/_synapse/admin/v1/rooms/" ++ "!room1:xentonix.net" ++ "/state") "GET" none false).1
        = .ok state ∧
      ["!child1:matrix.org", "!child2:matrix.org"] = childKeys state ∧
      (2 : Int) = ((childKeys state).length : Int) ∧
      ∀ key, key ∈ ["!child1:matrix.org", "!child2:matrix.org"] ↔
        ∃ event ∈ state, event.TypeString = "m.space.child" ∧ event.StateKey = some key :=
  C2_children_of_detail fixtureJSON twoChildrenMock.client (sequential 1)
    { spaces := [{ ID := "!room1:xentonix.net", Name := "Ubuntu Community", Members := 1500,
                   ChildCount := 2,
                   ChildRooms := ["!child1:matrix.org", "!child2:matrix.org"] }],
      err := none,
      detailCalls := ["/_synapse/admin/v1/rooms/!room1:xentonix.net/state"] }
    0 _ (by decide) rfl rfl

/-- C3: when the listing call succeeds and decodes to `chunk`, and the detail
call of one entry `room` of it fails (the transport returns an error, or the
payload does not decode), then `GetSpaces` returns (some schedule completes)
and, whatever the schedule and whatever the detail calls of the other
entries give, it returns a non-nil error and the nil slice. -/
theorem C3_detail_failure_is_total (json : JSON) (client : SynapseClientInterface)
    (chunk : List PublicRoomInfo) (room : PublicRoomInfo)
    (_hlisting : (listingCall client).2 = none)
    (hchunk : json.UnmarshalPublicRooms (listingCall client).1 = .ok chunk)
    (hroom : room ∈ chunk)
    (hfail : (detailCall client { Err := none } room.RoomID).2 ≠ none ∨
      ∃ e, json.UnmarshalState (detailCall client { Err := none } room.RoomID).1 = .error e) :
    (∃ sched out, GetSpaces json client sched = some out) ∧
    ∀ sched out, GetSpaces json client sched = some out →
      out.err ≠ none ∧ out.spaces = [] ∧ out.spaces.length = 0 := by
  refine ⟨GetSpaces_returns json client, ?_⟩
  intro sched out h
  cases herr : out.err with
  | some e =>
    have hnil := (GetSpaces_err h herr).1
    exact ⟨by simp, hnil, by rw [hnil]; rfl⟩
  | none =>
    exfalso
    obtain ⟨chunk1, -, h2, -, hall⟩ := GetSpaces_ok h herr
    rw [hchunk] at h2
    cases Except.ok.inj h2
    obtain ⟨i, hi⟩ := List.mem_iff_getElem?.mp hroom
    obtain ⟨state, hf, -⟩ := hall i room hi
    obtain ⟨hr, hu⟩ := (fetchState_ok_iff json _ state).mp hf
    rcases hfail with hne | ⟨e, he⟩
    · exact hne hr
    · rw [hu] at he
      exact absurd he (by simp)

theorem C3_detail_failure_is_total_witness :
    (∃ sched out, GetSpaces fixtureJSON malformedStateMock.client sched = some out) ∧
    ∀ sched out, GetSpaces fixtureJSON malformedStateMock.client sched = some out →
      out.err ≠ none ∧ out.spaces = [] ∧ out.spaces.length = 0 :=
  C3_detail_failure_is_total fixtureJSON malformedStateMock.client
    [{ RoomID := "!room2:matrix.org", Name := "Test", NumJoinedMembers := 1 }]
    { RoomID := "!room2:matrix.org", Name := "Test", NumJoinedMembers := 1 }
    rfl rfl (List.mem_singleton.mpr rfl) (Or.inr ⟨syntaxError, rfl⟩)

/-- C4: when the listing call returns the error `e`, or succeeds with a
payload whose decoding fails with `e`, then under every schedule `GetSpaces`
returns exactly `e` and the nil slice, and has made no detail call. -/
theorem C4_listing_failure_short_circuits (json : JSON) (client : SynapseClientInterface)
    (e : GoError) (sched : List Action)
    (h : (listingCall client).2 = some e ∨
      ((listingCall client).2 = none ∧
        json.UnmarshalPublicRooms (listingCall client).1 = .error e)) :
    GetSpaces json client sched = some { spaces := [], err := some e, detailCalls := [] } := by
  rcases h with h1 | ⟨h1, h2⟩
  · simp only [GetSpaces, h1]
  · simp only [GetSpaces, h1, parseSpaces_error json _ e h2]

theorem C4_listing_failure_short_circuits_witness :
    GetSpaces fixtureJSON listingErrorMock.client (sequential 1) =
        some { spaces := [],
               err := some (GoError.errorString "assert.AnError general error for testing"),
               detailCalls := [] } ∧
    GetSpaces fixtureJSON
        (MockClient.client { Responses := [(publicRoomsPath, malformedState)], Errors := [] })
        (sequential 1) =
        some { spaces := [], err := some syntaxError, detailCalls := [] } :=
  ⟨C4_listing_failure_short_circuits fixtureJSON listingErrorMock.client _ (sequential 1)
      (Or.inl rfl),
   C4_listing_failure_short_circuits fixtureJSON
      (MockClient.client { Responses := [(publicRoomsPath, malformedState)], Errors := [] })
      _ (sequential 1) (Or.inr ⟨rfl, rfl⟩)⟩

/-- C5: in every sequence returned by a run of `GetSpaces` without error,
every `Space` has `ChildCount` equal to the length of `ChildRooms`, whatever
the decoder and the transport give. -/
theorem C5_child_count_is_length (json : JSON) (client : SynapseClientInterface)
    (sched : List Action) (out : Outcome) (space : Space)
    (h : GetSpaces json client sched = some out) (herr : out.err = none)
    (hspace : space ∈ out.spaces) :
    space.ChildCount = (space.ChildRooms.length : Int) := by
  obtain ⟨chunk, -, -, hlen, hall⟩ := GetSpaces_ok h herr
  obtain ⟨i, hi⟩ := List.mem_iff_getElem?.mp hspace
  have hlt : i < chunk.length := hlen ▸ (List.getElem?_eq_some.mp hi).1
  obtain ⟨state, -, hsp⟩ := hall i _ (List.getElem?_eq_getElem hlt)
  rw [hi] at hsp
  cases Option.some.inj hsp
  simp [enrich, newSpace, countChildren_eq]

theorem C5_child_count_is_length_witness :
    (2 : Int) = ((["!child1:matrix.org", "!child2:matrix.org"] : List String).length : Int) :=
  C5_child_count_is_length fixtureJSON twoChildrenMock.client (sequential 1)
    { spaces := [{ ID := "!room1:xentonix.net", Name := "Ubuntu Community", Members := 1500,
                   ChildCount := 2,
                   ChildRooms := ["!child1:matrix.org", "!child2:matrix.org"] }],
      err := none,
      detailCalls := ["/_synapse/admin/v1/rooms/!room1:xentonix.net/state"] }
    { ID := "!room1:xentonix.net", Name := "Ubuntu Community", Members := 1500,
      ChildCount := 2, ChildRooms := ["!child1:matrix.org", "!child2:matrix.org"] }
    (by decide) rfl (List.mem_singleton.mpr rfl)

/-- C6: when the listing call succeeds with a payload that decodes to the
empty chunk, `parseSpaces` yields the empty sequence and no error, and
`GetSpaces` returns, under the empty schedule and under every other one, the
empty sequence, no error, and has made no detail call. -/
theorem C6_empty_listing (json : JSON) (client : SynapseClientInterface)
    (hlisting : (listingCall client).2 = none)
    (hchunk : json.UnmarshalPublicRooms (listingCall client).1 = .ok []) :
    parseSpaces json (listingCall client).1 = ([], none) ∧
    GetSpaces json client [] = some { spaces := [], err := none, detailCalls := [] } ∧
    ∀ sched out, GetSpaces json client sched = some out →
      out = { spaces := [], err := none, detailCalls := [] } := by
  have hparse := parseSpaces_ok json _ [] hchunk
  refine ⟨hparse, ?_, ?_⟩
  · simp only [GetSpaces, hlisting, hparse]
    rfl
  · intro sched out h
    rcases GetSpaces_cases h with ⟨e, h1, -⟩ | ⟨e, -, h2, -⟩ | ⟨chunk, s, -, h2, hrun, -, hw⟩
    · rw [hlisting] at h1; exact absurd h1 (by simp)
    · rw [hchunk] at h2; exact absurd h2 (by simp)
    · rw [hchunk] at h2
      cases Except.ok.inj h2
      obtain ⟨hs1, hs2, hs3, hs4⟩ := run_spawn_nil hrun
      unfold wait at hw
      simp only [Enrichment.allDone, hs2, hs3, List.all_nil, if_true] at hw
      rw [hs1, hs4] at hw
      exact (Option.some.inj hw).symm

theorem C6_empty_listing_witness :
    parseSpaces fixtureJSON (listingCall noSpacesMock.client).1 = ([], none) ∧
    GetSpaces fixtureJSON noSpacesMock.client [] =
      some { spaces := [], err := none, detailCalls := [] } ∧
    ∀ sched out, GetSpaces fixtureJSON noSpacesMock.client sched = some out →
      out = { spaces := [], err := none, detailCalls := [] } :=
  C6_empty_listing fixtureJSON noSpacesMock.client rfl rfl

theorem expire_not_mem_one : Action.expire ∉ sequential 1 := by
  decide

/-- C7, as stated, fails, in both of its parts.  The error of a malformed
detail payload is the one `json.Unmarshal` made from the bytes alone, so the
runs for the records `!room2:matrix.org` and `!room3:matrix.org` return the
same error value, and no reading of the error yields the affected record.
And a transport may fail with an error value of any type: when it fails with
a `*json.SyntaxError`, `GetSpaces` returns the very value that a decode
failure returns, so no reading of the error tells the two classes apart. -/
theorem C7_error_does_not_name_record :
    (¬ ∃ recordOf : GoError → String, ErrorNamesRecord fixtureJSON recordOf) ∧
    (¬ ∃ kindOf : GoError → FailureKind, ErrorTellsKind fixtureJSON kindOf) := by
  constructor
  · rintro ⟨recordOf, h⟩
    have h2 := h malformedStateMock.client (sequential 1)
      { spaces := [], err := some syntaxError,
        detailCalls := ["/_synapse/admin/v1/rooms/!room2:matrix.org/state"] }
      syntaxError { RoomID := "!room2:matrix.org", Name := "Test", NumJoinedMembers := 1 }
      rfl rfl (by decide) rfl
    have h3 := h malformedStateMock3.client (sequential 1)
      { spaces := [], err := some syntaxError,
        detailCalls := ["/_synapse/admin/v1/rooms/!room3:matrix.org/state"] }
      syntaxError { RoomID := "!room3:matrix.org", Name := "Test", NumJoinedMembers := 1 }
      rfl rfl (by decide) rfl
    rw [h2] at h3
    exact absurd h3 (by decide)
  · rintro ⟨kindOf, h⟩
    have h2 := h malformedStateMock.client (sequential 1)
      { spaces := [], err := some syntaxError,
        detailCalls := ["/_synapse/admin/v1/rooms/!room2:matrix.org/state"] }
      syntaxError { RoomID := "!room2:matrix.org", Name := "Test", NumJoinedMembers := 1 }
      expire_not_mem_one rfl rfl (by decide) rfl
    have h3 := h syntaxErrorMock.client (sequential 1)
      { spaces := [], err := some syntaxError,
        detailCalls := ["/_synapse/admin/v1/rooms/!room2:matrix.org/state"] }
      syntaxError { RoomID := "!room2:matrix.org", Name := "Test", NumJoinedMembers := 1 }
      expire_not_mem_one rfl rfl (by decide) rfl
    have e2 : (detailCall malformedStateMock.client { Err := none }
        "!room2:matrix.org").2 = none := rfl
    have e3 : (detailCall syntaxErrorMock.client { Err := none }
        "!room2:matrix.org").2 = some syntaxError := rfl
    simp only [e2, e3, if_true] at h2 h3
    rw [h2] at h3
    exact absurd h3 (by simp)

/-- C7, amended: when the listing succeeded and decoded to `chunk`, every
error `GetSpaces` returns is, unchanged in value and in dynamic type, the
error of the step that failed: the error the transport returned for the
detail call of some entry of `chunk` (under a live context or, once the
deadline has expired, under the expired one), or the error `json.Unmarshal`
returned on the detail payload of that entry, or `context.DeadlineExceeded`
when the deadline expired and a task took `<-ctx.Done()`.  When the errors of
the transport all have a type of class network and the errors of the decoder
all have a type of class decode, the class of the returned error tells which
of the three happened.  `GetSpaces` adds neither an error class nor a record
identifier. -/
theorem C7_error_is_passed_through (json : JSON) (client : SynapseClientInterface)
    (chunk : List PublicRoomInfo) (sched : List Action) (out : Outcome) (e : GoError)
    (hlisting : (listingCall client).2 = none)
    (hchunk : json.UnmarshalPublicRooms (listingCall client).1 = .ok chunk)
    (h : GetSpaces json client sched = some out) (herr : out.err = some e) :
    ((∃ room ∈ chunk, ∃ ctx : Context,
        (ctx = { Err := none } ∨
          (Action.expire ∈ sched ∧ ctx = { Err := some GoError.deadlineExceeded })) ∧
        (detailCall client ctx room.RoomID).2 = some e) ∨
     (∃ room ∈ chunk,
        (detailCall client { Err := none } room.RoomID).2 = none ∧
        json.UnmarshalState (detailCall client { Err := none } room.RoomID).1 = .error e) ∨
     (Action.expire ∈ sched ∧ e = GoError.deadlineExceeded)) ∧
    ((∀ (ctx : Context) (id : String) (e1 : GoError),
        (detailCall client ctx id).2 = some e1 → e1.kind = FailureKind.network) →
     (∀ (data : Bytes) (e1 : GoError),
        json.UnmarshalState data = .error e1 → e1.kind = FailureKind.decode) →
     (e.kind = FailureKind.network ↔
        ∃ room ∈ chunk, ∃ ctx : Context, (detailCall client ctx room.RoomID).2 = some e) ∧
     (e.kind = FailureKind.decode ↔
        ∃ room ∈ chunk,
          (detailCall client { Err := none } room.RoomID).2 = none ∧
          json.UnmarshalState (detailCall client { Err := none } room.RoomID).1 = .error e) ∧
     (e.kind = FailureKind.cancellation ↔
        Action.expire ∈ sched ∧ e = GoError.deadlineExceeded)) := by
  have hsrc : ∃ room ∈ chunk, Source json client (Action.expire ∈ sched) (newSpace room) e := by
    rcases (GetSpaces_err h herr).2 with h1 | ⟨-, h2⟩ | ⟨chunk1, -, h2, room, hmem, hs⟩
    · rw [hlisting] at h1; exact absurd h1 (by simp)
    · rw [hchunk] at h2; exact absurd h2 (by simp)
    · rw [hchunk] at h2
      cases Except.ok.inj h2
      exact ⟨room, hmem, hs⟩
  obtain ⟨room, hmem, hs⟩ := hsrc
  have hthree : (∃ room ∈ chunk, ∃ ctx : Context,
        (ctx = { Err := none } ∨
          (Action.expire ∈ sched ∧ ctx = { Err := some GoError.deadlineExceeded })) ∧
        (detailCall client ctx room.RoomID).2 = some e) ∨
     (∃ room ∈ chunk,
        (detailCall client { Err := none } room.RoomID).2 = none ∧
        json.UnmarshalState (detailCall client { Err := none } room.RoomID).1 = .error e) ∨
     (Action.expire ∈ sched ∧ e = GoError.deadlineExceeded) := by
    rcases hs with ⟨ctx, hctx, hcall⟩ | hdec | hdead
    · exact Or.inl ⟨room, hmem, ctx, hctx, hcall⟩
    · exact Or.inr (Or.inl ⟨room, hmem, hdec⟩)
    · exact Or.inr (Or.inr hdead)
  refine ⟨hthree, ?_⟩
  intro hnet hdec
  have knet : ∀ room1 ∈ chunk, ∀ ctx : Context,
      (detailCall client ctx room1.RoomID).2 = some e → e.kind = FailureKind.network :=
    fun room1 _ ctx hc => hnet ctx room1.RoomID e hc
  have kdec : ∀ room1 ∈ chunk,
      json.UnmarshalState (detailCall client { Err := none } room1.RoomID).1 = .error e →
      e.kind = FailureKind.decode :=
    fun room1 _ hu => hdec _ e hu
  refine ⟨⟨?_, ?_⟩, ⟨?_, ?_⟩, ⟨?_, ?_⟩⟩
  · intro hk
    rcases hthree with ⟨r, hr, ctx, -, hc⟩ | ⟨r, hr, -, hu⟩ | ⟨-, he⟩
    · exact ⟨r, hr, ctx, hc⟩
    · rw [kdec r hr hu] at hk; exact absurd hk (by simp)
    · rw [he] at hk; exact absurd hk (by simp [GoError.kind])
  · rintro ⟨r, hr, ctx, hc⟩
    exact knet r hr ctx hc
  · intro hk
    rcases hthree with ⟨r, hr, ctx, -, hc⟩ | ⟨r, hr, hu⟩ | ⟨-, he⟩
    · rw [knet r hr ctx hc] at hk; exact absurd hk (by simp)
    · exact ⟨r, hr, hu⟩
    · rw [he] at hk; exact absurd hk (by simp [GoError.kind])
  · rintro ⟨r, hr, -, hu⟩
    exact kdec r hr hu
  · intro hk
    rcases hthree with ⟨r, hr, ctx, -, hc⟩ | ⟨r, hr, -, hu⟩ | hdead
    · rw [knet r hr ctx hc] at hk; exact absurd hk (by simp)
    · rw [kdec r hr hu] at hk; exact absurd hk (by simp)
    · exact hdead
  · rintro ⟨-, he⟩
    rw [he]
    rfl

theorem C7_error_is_passed_through_witness :
    ((∃ room ∈ [({ RoomID := "!room2:matrix.org", Name := "Test",
                   NumJoinedMembers := 1 } : PublicRoomInfo)], ∃ ctx : Context,
        (ctx = { Err := none } ∨
          (Action.expire ∈ sequential 1 ∧ ctx = { Err := some GoError.deadlineExceeded })) ∧
        (detailCall malformedStateMock.client ctx room.RoomID).2 = some syntaxError) ∨
     (∃ room ∈ [({ RoomID := "!room2:matrix.org", Name := "Test",
                   NumJoinedMembers := 1 } : PublicRoomInfo)],
        (detailCall malformedStateMock.client { Err := none } room.RoomID).2 = none ∧
        fixtureJSON.UnmarshalState
          (detailCall malformedStateMock.client { Err := none } room.RoomID).1 =
          .error syntaxError) ∨
     (Action.expire ∈ sequential 1 ∧ syntaxError = GoError.deadlineExceeded)) ∧
    ((∀ (ctx : Context) (id : String) (e1 : GoError),
        (detailCall malformedStateMock.client ctx id).2 = some e1 →
        e1.kind = FailureKind.network) →
     (∀ (data : Bytes) (e1 : GoError),
        fixtureJSON.UnmarshalState data = .error e1 → e1.kind = FailureKind.decode) →
     (syntaxError.kind = FailureKind.network ↔
        ∃ room ∈ [({ RoomID := "!room2:matrix.org", Name := "Test",
                     NumJoinedMembers := 1 } : PublicRoomInfo)], ∃ ctx : Context,
          (detailCall malformedStateMock.client ctx room.RoomID).2 = some syntaxError) ∧
     (syntaxError.kind = FailureKind.decode ↔
        ∃ room ∈ [({ RoomID := "!room2:matrix.org", Name := "Test",
                     NumJoinedMembers := 1 } : PublicRoomInfo)],
          (detailCall malformedStateMock.client { Err := none } room.RoomID).2 = none ∧
          fixtureJSON.UnmarshalState
            (detailCall malformedStateMock.client { Err := none } room.RoomID).1 =
            .error syntaxError) ∧
     (syntaxError.kind = FailureKind.cancellation ↔
        Action.expire ∈ sequential 1 ∧ syntaxError = GoError.deadlineExceeded)) :=
  C7_error_is_passed_through fixtureJSON malformedStateMock.client _ (sequential 1)
    { spaces := [], err := some syntaxError,
      detailCalls := ["/_synapse/admin/v1/rooms/!room2:matrix.org/state"] }
    syntaxError rfl rfl (by decide) rfl

/-- The errors of the test double of the case "malformed state json" and of
the decoder `fixtureJSON` are typed as the condition of
`C7_error_is_passed_through` asks: the double fails with an
`*errors.errorString` only, the decoder with a `*json.SyntaxError` only. -/
theorem fixture_errors_typed :
    (∀ (ctx : Context) (id : String) (e1 : GoError),
        (detailCall malformedStateMock.client ctx id).2 = some e1 →
        e1.kind = FailureKind.network) ∧
    (∀ (data : Bytes) (e1 : GoError),
        fixtureJSON.UnmarshalState data = .error e1 → e1.kind = FailureKind.decode) := by
  constructor
  · intro ctx id e1 h
    simp only [detailCall, MockClient.client, MockClient.Call, malformedStateMock,
      List.lookup] at h
    split at h
    · simp at h
    · simp only [Option.some.injEq] at h
      rw [← h]
      rfl
  · intro data e1 h
    simp only [fixtureJSON] at h
    split at h
    · simp at h
    · split at h
      · simp at h
      · simp only [Except.error.injEq] at h
        rw [← h]
        rfl

/-- C8: in every state that a run of the enrichment phase reaches, for any
number of spaces, the number of detail calls in flight is at most 10: every
task in flight holds a slot, the tasks holding a slot are as many as the
elements of the channel `sem`, and these are at most
`maxConcurrentRequests = 10`. -/
theorem C8_in_flight_at_most_ten (json : JSON) (client : SynapseClientInterface)
    (spaces0 : List Space) (sched : List Action) (s : Enrichment)
    (h : run json client (spawn spaces0) sched = some s) :
    s.inFlight ≤ 10 ∧
    (∀ ph ∈ s.phase, ph.inFlight = true → ph.holdsSlot = true) ∧
    s.inFlight ≤ s.holders ∧ s.holders = s.sem ∧ s.sem ≤ maxConcurrentRequests ∧
    maxConcurrentRequests = 10 := by
  have hinv := inv_run h
  have hslot : ∀ ph ∈ s.phase, ph.inFlight = true → ph.holdsSlot = true := by
    intro ph _ hph
    cases ph <;> simp_all [Phase.inFlight, Phase.holdsSlot]
  have hle : s.inFlight ≤ s.holders := List.countP_mono_left hslot
  have hsem := hinv.sem_eq
  have hten := hinv.sem_le
  have hmax : maxConcurrentRequests = 10 := rfl
  refine ⟨?_, hslot, hle, hsem.symm, hten, hmax⟩
  omega

theorem C8_in_flight_at_most_ten_witness :
    run fixtureJSON twoChildrenMock.client (spawn twelveSpaces) tenAdmissions = some tenInFlight ∧
    tenInFlight.inFlight = 10 ∧
    step fixtureJSON twoChildrenMock.client tenInFlight (Action.acquire 10) = none ∧
    (tenInFlight.inFlight ≤ 10 ∧
      (∀ ph ∈ tenInFlight.phase, ph.inFlight = true → ph.holdsSlot = true) ∧
      tenInFlight.inFlight ≤ tenInFlight.holders ∧ tenInFlight.holders = tenInFlight.sem ∧
      tenInFlight.sem ≤ maxConcurrentRequests ∧ maxConcurrentRequests = 10) :=
  ⟨by decide, by decide, by decide,
   C8_in_flight_at_most_ten fixtureJSON twoChildrenMock.client twelveSpaces tenAdmissions
     tenInFlight (by decide)⟩

/-- C9, as stated, fails: a detail payload in which two `m.space.child`
events carry the same state key gives a `ChildRooms` with that identifier
twice, in a run without error in which the task ran once. -/
theorem C9_repeated_child_is_kept :
    GetSpaces fixtureJSON repeatedChildMock.client (sequential 1) =
      some { spaces := [{ ID := "!room1:xentonix.net", Name := "Ubuntu Community",
                          Members := 1500, ChildCount := 2,
                          ChildRooms := ["!child1:matrix.org", "!child1:matrix.org"] }],
             err := none,
             detailCalls := ["/_synapse/admin/v1/rooms/!room1:xentonix.net/state"] } ∧
    ¬ (["!child1:matrix.org", "!child1:matrix.org"] : List String).Nodup := by
  constructor
  · decide
  · decide

/-- C9, amended: after a run of `GetSpaces` without error, the `ChildRooms` of
a returned `Space` has no identifier twice, provided the `m.space.child`
events with a state key in the detail payload of that space carry pairwise
distinct state keys. -/
theorem C9_no_duplicates_from_distinct_keys (json : JSON) (client : SynapseClientInterface)
    (sched : List Action) (out : Outcome) (space : Space)
    (h : GetSpaces json client sched = some out) (herr : out.err = none)
    (hspace : space ∈ out.spaces)
    (hdistinct : ∀ state,
      fetchState json (detailCall client { Err := none } space.ID) = .ok state →
      (childKeys state).Nodup) :
    space.ChildRooms.Nodup := by
  obtain ⟨chunk, -, -, hlen, hall⟩ := GetSpaces_ok h herr
  obtain ⟨i, hi⟩ := List.mem_iff_getElem?.mp hspace
  have hlt : i < chunk.length := hlen ▸ (List.getElem?_eq_some.mp hi).1
  obtain ⟨state, hf, hsp⟩ := hall i _ (List.getElem?_eq_getElem hlt)
  rw [hi] at hsp
  cases Option.some.inj hsp
  have hd := hdistinct state hf
  simpa [enrich, newSpace, countChildren_eq] using hd

theorem C9_no_duplicates_from_distinct_keys_witness :
    (["!child1:matrix.org", "!child2:matrix.org"] : List String).Nodup :=
  C9_no_duplicates_from_distinct_keys fixtureJSON twoChildrenMock.client (sequential 1)
    { spaces := [{ ID := "!room1:xentonix.net", Name := "Ubuntu Community", Members := 1500,
                   ChildCount := 2,
                   ChildRooms := ["!child1:matrix.org", "!child2:matrix.org"] }],
      err := none,
      detailCalls := ["/_synapse/admin/v1/rooms/!room1:xentonix.net/state"] }
    { ID := "!room1:xentonix.net", Name := "Ubuntu Community", Members := 1500,
      ChildCount := 2, ChildRooms := ["!child1:matrix.org", "!child2:matrix.org"] }
    (by decide) rfl (List.mem_singleton.mpr rfl)
    (by
      intro state hstate
      have hs : [({ TypeString := "m.space.child", StateKey := some "!child1:matrix.org" } : Event),
                 { TypeString := "m.space.child", StateKey := some "!child2:matrix.org" }]
          = state := Except.ok.inj hstate
      subst hs
      decide)

/-! ## The HTTP `Call` without retry -/

theorem callWith_unbuilt (http : HTTP) (client : HTTPClient) (config : Config)
    (request failed : String) (ctx : Context) (path method : String) (payload : Option Bytes)
    (err : GoError) (h : http.NewRequestError method (config.BaseURL ++ path) = some err) :
    callWith http client config request failed ctx path method payload false =
      { output := "",
        err := some (GoError.errorString
          (request ++ " to " ++ (config.BaseURL ++ path) ++ " failed: " ++ err.Error)),
        attempts := 0 } := by
  simp [callWith, NewRequestWithContext, h]

theorem callWith_built (http : HTTP) (client : HTTPClient) (config : Config)
    (request failed : String) (ctx : Context) (path method : String) (payload : Option Bytes)
    (h : http.NewRequestError method (config.BaseURL ++ path) = none) :
    callWith http client config request failed ctx path method payload false =
      { output := (attempt http client 0 (requestFor config ctx path method payload)
          (config.BaseURL ++ path) request failed).1,
        err := (attempt http client 0 (requestFor config ctx path method payload)
          (config.BaseURL ++ path) request failed).2,
        attempts := 1 } := by
  simp [callWith, NewRequestWithContext, h, requestFor]

theorem callWith_contract (http : HTTP) (client : HTTPClient) (config : Config)
    (request failed : String) (ctx : Context) (path method : String) (payload : Option Bytes) :
    SingleAttemptContract http client method (requestFor config ctx path method payload)
      (callWith http client config request failed ctx path method payload false) := by
  unfold SingleAttemptContract
  cases hreq : http.NewRequestError method (config.BaseURL ++ path) with
  | some err =>
    rw [callWith_unbuilt http client config request failed ctx path method payload err hreq]
    refine ⟨by simp, ?_, by simp⟩
    intro body
    simp [requestFor, hreq]
  | none =>
    rw [callWith_built http client config request failed ctx path method payload hreq]
    simp only
    refine ⟨Nat.le_refl 1, ?_, ?_⟩
    · intro body
      have hurl : (requestFor config ctx path method payload).URL = config.BaseURL ++ path := rfl
      rw [hurl, hreq]
      unfold attempt
      cases hdo : http.Do client 0 (requestFor config ctx path method payload) with
      | error err => simp
      | ok resp =>
        simp only [StatusOK, StatusCreated, StatusNoContent]
        by_cases hst : resp.StatusCode ≠ 200 ∧ resp.StatusCode ≠ 201 ∧ resp.StatusCode ≠ 204
        · rw [if_pos hst]
          have hno : ¬ (resp.StatusCode = 200 ∨ resp.StatusCode = 201 ∨ resp.StatusCode = 204) := by
            rintro (h | h | h)
            · exact hst.1 h
            · exact hst.2.1 h
            · exact hst.2.2 h
          simp [hno]
        · rw [if_neg hst]
          have hyes : resp.StatusCode = 200 ∨ resp.StatusCode = 201 ∨ resp.StatusCode = 204 := by
            by_contra hcon
            exact hst ⟨fun h => hcon (Or.inl h), fun h => hcon (Or.inr (Or.inl h)),
              fun h => hcon (Or.inr (Or.inr h))⟩
          rcases hb : resp.Body with ⟨data, rerr⟩
          cases rerr with
          | none =>
            simp only [true_and]
            constructor
            · intro h
              exact ⟨resp, rfl, hyes, by rw [hb, h]⟩
            · rintro ⟨resp1, h1, -, h3⟩
              cases Except.ok.inj h1
              rw [hb] at h3
              exact (Prod.mk.inj h3).1
          | some rerr =>
            simp only [false_and, false_iff, reduceCtorEq]
            rintro ⟨-, resp1, h1, -, h3⟩
            cases Except.ok.inj h1
            rw [hb] at h3
            exact absurd (Prod.mk.inj h3).2 (by simp)
    · unfold attempt
      cases hdo : http.Do client 0 (requestFor config ctx path method payload) with
      | error err => simp
      | ok resp =>
        simp only
        split
        · simp
        · rcases hb : resp.Body with ⟨data, rerr⟩
          cases rerr <;> simp

/-- C10: with `retry` false, both `SynapseClient.Call` and `Call` of package
`internal` call `client.Do` at most once, and return the response body with a
nil error exactly when the request was built, that one attempt completed, the
status is 200, 201 or 204 and the body was read; in every other case (another
status, a failure of the transport, a body that cannot be read) they return a
non-nil error and an empty output. -/
theorem C10_call_without_retry (http : HTTP) (s : SynapseClient) (config : Config)
    (ctx : Context) (path method : String) (payload : Option Bytes) :
    SingleAttemptContract http s.Client method (requestFor s.Config ctx path method payload)
      (SynapseClient.Call http s ctx path method payload false) ∧
    SingleAttemptContract http { Timeout := config.Timeout } method
      (requestFor config ctx path method payload)
      (Call http ctx config path method payload false) :=
  ⟨callWith_contract http s.Client s.Config "request" "failed" ctx path method payload,
   callWith_contract http { Timeout := config.Timeout } config "Request" "Failed" ctx path
     method payload⟩

/-- The two implementations on a server that answers 200 and on one that
answers 404. -/
theorem Call_examples :
    Call fixtureHTTP { Err := none } fixtureConfig "/good" "GET" none false =
      { output := "ok", err := none, attempts := 1 } ∧
    SynapseClient.Call fixtureHTTP { Client := { Timeout := 30 }, Config := fixtureConfig }
        { Err := none } "/missing" "GET" none false =
      { output := "",
        err := some (GoError.errorString
          "request to https://matrix.example/missing returned unexpected status: 404 Not Found"),
        attempts := 1 } ∧
    SynapseClient.Call fixtureHTTP { Client := { Timeout := 30 }, Config := fixtureConfig }
        { Err := none } "/missing" "GET" none true =
      { output := "",
        err := some (GoError.errorString
          "request to https://matrix.example/missing returned unexpected status: 404 Not Found"),
        attempts := 4 } := by
  refine ⟨?_, ?_, ?_⟩ <;> decide

/-! ## The presentation of a space -/

theorem strings.Join_cons (b : String) (rest : List String) (sep : String) :
    strings.Join (b :: rest) sep = rest.foldl (fun x s => x ++ sep ++ s) b := by
  cases rest with
  | nil => rfl
  | cons c rest => rfl

theorem strings.Join_cons_cons (a b : String) (rest : List String) (sep : String) :
    strings.Join (a :: b :: rest) sep = a ++ sep ++ strings.Join (b :: rest) sep := by
  have h : ∀ (l : List String) (x y : String),
      l.foldl (fun b s => b ++ sep ++ s) (x ++ y) = x ++ l.foldl (fun b s => b ++ sep ++ s) y := by
    intro l
    induction l with
    | nil => intro x y; rfl
    | cons c l ih =>
      intro x y
      simp only [List.foldl_cons]
      rw [String.append_assoc x y sep, String.append_assoc x (y ++ sep) c]
      exact ih x (y ++ sep ++ c)
  rw [strings.Join_cons, strings.Join_cons, List.foldl_cons]
  exact h rest (a ++ sep) b

theorem strings.Join_eq_intercalate (elems : List String) (sep : String) :
    strings.Join elems sep = String.intercalate sep elems := by
  have h : ∀ (l : List String) (acc : String),
      String.intercalate.go acc sep l = l.foldl (fun b s => b ++ sep ++ s) acc := by
    intro l
    induction l with
    | nil => intro acc; rfl
    | cons c l ih => intro acc; simp only [String.intercalate.go, List.foldl_cons]; exact ih _
  cases elems with
  | nil => rfl
  | cons a rest =>
    cases rest with
    | nil => rfl
    | cons b rest => simp only [strings.Join, String.intercalate, h]

/-- C11: for every `Space`, `Header` is the four columns `Name`, `Members`,
`Child Count`, `Child Rooms`, and `Row` is the four values name, member
count, child count and the child identifiers joined by `","` in order (the
first identifier, then a comma and the next one for every further
identifier); the row has as many cells as the header, and the joined cell is
the empty string when `ChildRooms` is empty. -/
theorem C11_header_and_row (s : Space) :
    s.Header = ["Name", "Members", "Child Count", "Child Rooms"] ∧
    s.Row = [Cell.string s.Name, Cell.int s.Members, Cell.int s.ChildCount,
             Cell.string (String.intercalate "," s.ChildRooms)] ∧
    s.Row.length = s.Header.length ∧
    ({ s with ChildRooms := [] } : Space).Row[3]? = some (Cell.string "") ∧
    (∀ a : String, ({ s with ChildRooms := [a] } : Space).Row[3]? = some (Cell.string a)) ∧
    (∀ (a b : String) (rest : List String),
      ({ s with ChildRooms := a :: b :: rest } : Space).Row[3]? =
        some (Cell.string (a ++ "," ++ strings.Join (b :: rest) ","))) := by
  refine ⟨rfl, ?_, rfl, rfl, fun _ => rfl, ?_⟩
  · simp only [Space.Row, strings.Join_eq_intercalate]
  · intro a b rest
    simp only [Space.Row, strings.Join_cons_cons]
    rfl

/-- The header and the row of the space of the test case "single space, two
children" after enrichment. -/
theorem Row_example :
    Space.Row { ID := "!room1:xentonix.net", Name := "Ubuntu Community", Members := 1500,
                ChildCount := 2, ChildRooms := ["!child1:matrix.org", "!child2:matrix.org"] } =
      [Cell.string "Ubuntu Community", Cell.int 1500, Cell.int 2,
       Cell.string "!child1:matrix.org,!child2:matrix.org"] := by
  decide

/-! ## The merge steps of distinct tasks commute -/

end Syncli
